import Mathlib

/-!
# Verification of the Version Resolution & Reconciliation Engine

A shallow embedding of the core logic of the `ocr-langchain-langgraph`
repository, together with proofs about its behaviour.

Embedded components (file/function names follow the Python source):

* `src/agents/versioning_agent.py` — `_to_dt`, `VersioningAgent.assign_versions`,
  `VersioningAgent.assign_versions_from_ocr` (the deterministic
  grouping/ordering/numbering core; the LLM classification and date-extraction
  calls in `assign_versions_from_ocr` are external collaborators, so that
  function is embedded from its per-document results onward).
* `src/agents/report_generator_agent.py` — `_ocr_text_by_filename`,
  `_get_empty_fields`, `_parse_fecha`,
  `_extract_section_with_date_priority`, `_extract_encabezado_with_date_priority`
  (the LLM extraction call `_llm_json` is an external collaborator, passed in
  as a function argument).
* `src/agents/version_comparer_agent.py` — `_find_text`, `_compare_texts`,
  `comparar_versiones` (the LLM diff call is an external collaborator).
* `src/core/graph/state_graph.py` — `ProcessingState`, `create_initial_state`,
  the stage functions `paso_1_ocr` … `paso_8_report_generation`, and the
  sequential composition produced by `build_processing_graph` (the graph has
  only unconditional edges, so the compiled graph is a plain function
  composition of the stages).

Python dictionaries are embedded as insertion-ordered association lists
(`List (String × _)`); lookup reads the first matching key, assignment updates
the first matching key in place or appends, matching `dict` semantics (real
dictionaries have unique keys, so first-match lookup is exact).
`datetime` values obtained from `strptime(s, "%d-%m-%Y")` are embedded as the
natural number `y*10000 + m*100 + d`; since `m < 100` and `d < 100`, the
numeric order on these codes coincides with `datetime`'s field-lexicographic
order, and `datetime.max`/`datetime.min` are the codes `99991231`/`10101`.
Python's stable sort (`list.sort` / `sorted`) is embedded as stable insertion
sort `ssort`: a stable sort w.r.t. a total transitive comparison is uniquely
determined, so this agrees with CPython's Timsort.
-/

-- ---------------------------------------------------------------------------
-- Code-point lexicographic string order (Python's `str` comparison)
-- ---------------------------------------------------------------------------

/-- Strict comparison of one code point. -/
def charLt (a b : Char) : Bool := a < b

/-- Lexicographic strict order on sequences, parameterised by the strict
order on elements. -/
def lexLt (ltc : α → α → Bool) [DecidableEq α] : List α → List α → Bool
  | [], [] => false
  | [], _ :: _ => true
  | _ :: _, [] => false
  | a :: as, b :: bs => ltc a b || (a = b && lexLt ltc as bs)

/-- Python's `a < b` on strings: lexicographic by code point. -/
def strLt (a b : String) : Bool := lexLt charLt a.data b.data

/-- Python's `a <= b` on strings (for a total order, `a <= b ↔ ¬ b < a`;
CPython's stable sort only ever asks `<` questions, and sorting w.r.t. this
`≤` is the same as sorting w.r.t. that `<`). -/
def strLe (a b : String) : Bool := ! strLt b a

theorem lexLt_irrefl {ltc : α → α → Bool} [DecidableEq α]
    (h1 : ∀ a, ltc a a = false) : ∀ l, lexLt ltc l l = false := by
  intro l
  induction l with
  | nil => rfl
  | cons a as ih => simp [lexLt, h1, ih]

theorem lexLt_trans {ltc : α → α → Bool} [DecidableEq α]
    (h2 : ∀ a b c, ltc a b = true → ltc b c = true → ltc a c = true) :
    ∀ l₁ l₂ l₃, lexLt ltc l₁ l₂ = true → lexLt ltc l₂ l₃ = true →
      lexLt ltc l₁ l₃ = true := by
  intro l₁
  induction l₁ with
  | nil =>
    intro l₂ l₃ hab hbc
    cases l₂ with
    | nil => exact absurd hab (by simp [lexLt])
    | cons b bs =>
      cases l₃ with
      | nil => exact absurd hbc (by simp [lexLt])
      | cons c cs => simp [lexLt]
  | cons a as ih =>
    intro l₂ l₃ hab hbc
    cases l₂ with
    | nil => exact absurd hab (by simp [lexLt])
    | cons b bs =>
      cases l₃ with
      | nil => exact absurd hbc (by simp [lexLt])
      | cons c cs =>
        simp only [lexLt, Bool.or_eq_true, Bool.and_eq_true, decide_eq_true_eq] at hab hbc ⊢
        rcases hab with hab | ⟨rfl, hab⟩
        · rcases hbc with hbc | ⟨rfl, _⟩
          · exact Or.inl (h2 _ _ _ hab hbc)
          · exact Or.inl hab
        · rcases hbc with hbc | ⟨rfl, hbc⟩
          · exact Or.inl hbc
          · exact Or.inr ⟨rfl, ih _ _ hab hbc⟩

theorem lexLt_asym {ltc : α → α → Bool} [DecidableEq α]
    (h1 : ∀ a, ltc a a = false)
    (hasym : ∀ a b, ltc a b = true → ltc b a = true → False) :
    ∀ l₁ l₂, lexLt ltc l₁ l₂ = true → lexLt ltc l₂ l₁ = true → False := by
  intro l₁
  induction l₁ with
  | nil =>
    intro l₂ hab hba
    cases l₂ with
    | nil => exact absurd hab (by simp [lexLt])
    | cons b bs => exact absurd hba (by simp [lexLt])
  | cons a as ih =>
    intro l₂ hab hba
    cases l₂ with
    | nil => exact absurd hab (by simp [lexLt])
    | cons b bs =>
      simp only [lexLt, Bool.or_eq_true, Bool.and_eq_true, decide_eq_true_eq] at hab hba
      rcases hab with hab | ⟨rfl, hab⟩
      · rcases hba with hba | ⟨heq, _⟩
        · exact hasym _ _ hab hba
        · subst heq
          exact absurd hab (by simp [h1])
      · rcases hba with hba | ⟨_, hba⟩
        · exact absurd hba (by simp [h1])
        · exact ih _ hab hba

theorem lexLt_conn {ltc : α → α → Bool} [DecidableEq α]
    (h3 : ∀ a b, ltc a b = false → ltc b a = false → a = b) :
    ∀ l₁ l₂, lexLt ltc l₁ l₂ = false → lexLt ltc l₂ l₁ = false → l₁ = l₂ := by
  intro l₁
  induction l₁ with
  | nil =>
    intro l₂ hab _
    cases l₂ with
    | nil => rfl
    | cons b bs => exact absurd hab (by simp [lexLt])
  | cons a as ih =>
    intro l₂ hab hba
    cases l₂ with
    | nil => exact absurd hba (by simp [lexLt])
    | cons b bs =>
      simp only [lexLt, Bool.or_eq_false_iff, Bool.and_eq_false_iff,
        decide_eq_false_iff_not] at hab hba
      have heq : a = b := h3 a b hab.1 hba.1
      subst heq
      rcases hab.2 with h | h
      · exact absurd rfl h
      · rcases hba.2 with h' | h'
        · exact absurd rfl h'
        · rw [ih bs h h']

theorem charLt_irrefl (a : Char) : charLt a a = false := by
  simp [charLt]

theorem charLt_trans (a b c : Char) :
    charLt a b = true → charLt b c = true → charLt a c = true := by
  simp only [charLt, decide_eq_true_eq]
  exact lt_trans

theorem charLt_asym (a b : Char) :
    charLt a b = true → charLt b a = true → False := by
  simp only [charLt, decide_eq_true_eq]
  exact fun h h' => absurd h' (lt_asymm h)

theorem charLt_conn (a b : Char) :
    charLt a b = false → charLt b a = false → a = b := by
  simp only [charLt, decide_eq_false_iff_not]
  intro h h'
  exact le_antisymm (le_of_not_lt h') (le_of_not_lt h)

theorem strLe_total (a b : String) : strLe a b = true ∨ strLe b a = true := by
  by_cases h : strLt b a = true
  · right
    by_cases h' : strLt a b = true
    · exact absurd (lexLt_asym charLt_irrefl charLt_asym _ _ h h') (by simp)
    · simp [strLe, Bool.eq_false_iff.mpr h']
  · left
    simp [strLe, Bool.eq_false_iff.mpr h]

theorem strLe_trans (a b c : String) :
    strLe a b = true → strLe b c = true → strLe a c = true := by
  simp only [strLe, Bool.not_eq_eq_eq_not, Bool.not_true]
  intro hba hcb
  by_cases hca : strLt c a = true
  · exfalso
    by_cases hbc : strLt b c = true
    · have hlt : strLt b a = true := lexLt_trans charLt_trans _ _ _ hbc hca
      rw [hlt] at hba
      exact absurd hba (by simp)
    · have hdata : c.data = b.data :=
        lexLt_conn charLt_conn _ _ hcb (by simpa using hbc)
      have : strLt c a = strLt b a := by
        unfold strLt
        rw [hdata]
      rw [this, hba] at hca
      exact absurd hca (by simp)
  · simpa using hca

theorem strLe_antisymm (a b : String) :
    strLe a b = true → strLe b a = true → a = b := by
  simp only [strLe, Bool.not_eq_eq_eq_not, Bool.not_true]
  intro hba hab
  have hdata : a.data = b.data := lexLt_conn charLt_conn _ _ hab hba
  cases a
  cases b
  exact congrArg String.mk hdata

-- ---------------------------------------------------------------------------
-- Date parsing (`datetime.strptime(s, "%d-%m-%Y")`)
-- ---------------------------------------------------------------------------

/-- `s.split("-")` on the code-point sequence (the separator is a single
character, so this is exact). -/
def splitDash : List Char → List (List Char)
  | [] => [[]]
  | c :: rest =>
    if c = '-' then [] :: splitDash rest
    else
      match splitDash rest with
      | g :: gs => (c :: g) :: gs
      | [] => [[c]]

/-- The numeric value of a nonempty all-digit character sequence. -/
def charsToNat? (cs : List Char) : Option Nat :=
  if cs ≠ [] ∧ cs.all Char.isDigit then
    some (cs.foldl (fun n c => n * 10 + (c.toNat - '0'.toNat)) 0)
  else none

/-- Decide whether `cs` consists of 1 or 2 digits denoting a number in
`lo..hi`.  This is the set of strings matched by CPython `strptime`'s
`%d` (with `lo,hi = 1,31`) and `%m` (with `lo,hi = 1,12`) patterns. -/
def parseField2 (lo hi : Nat) (cs : List Char) : Option Nat :=
  if 2 < cs.length then none
  else match charsToNat? cs with
    | some n => if lo ≤ n ∧ n ≤ hi then some n else none
    | none => none

/-- `strptime`'s `%Y`: exactly four digits; `datetime` additionally requires
`year ≥ 1` (`MINYEAR`). -/
def parseField4 (cs : List Char) : Option Nat :=
  if cs.length = 4 then
    match charsToNat? cs with
    | some n => if 1 ≤ n then some n else none
    | none => none
  else none

/-- Gregorian leap year, as used by `datetime`'s day-of-month validation. -/
def isLeap (y : Nat) : Bool := y % 4 = 0 && (y % 100 != 0 || y % 400 = 0)

/-- Number of days in month `m` of year `y` (`datetime` validation). -/
def daysInMonth (y m : Nat) : Nat :=
  if m = 2 then (if isLeap y then 29 else 28)
  else if m = 4 ∨ m = 6 ∨ m = 9 ∨ m = 11 then 30 else 31

/-- `versioning_agent._to_dt` (also `report_generator_agent._to_dt`):
`datetime.strptime(s, "%d-%m-%Y")`, `None` on failure.  The resulting
`datetime` is encoded as the natural number `y*10000 + m*100 + d`. -/
def _to_dt (s : String) : Option Nat :=
  match splitDash s.data with
  | [ds, ms, ys] =>
    match parseField2 1 31 ds, parseField2 1 12 ms, parseField4 ys with
    | some d, some m, some y =>
        if d ≤ daysInMonth y m then some (y * 10000 + m * 100 + d) else none
    | _, _, _ => none
  | _ => none

/-- The encoding of `datetime.max` (`9999-12-31`), the sentinel sort key
`assign_versions_from_ocr.parse_fecha` returns for unparseable dates. -/
def dtMaxCode : Nat := 99991231

/-- The encoding of `datetime.min` (`0001-01-01`), the sentinel sort key
`ReportGeneratorAgent._parse_fecha` returns for unparseable dates. -/
def dtMinCode : Nat := 10101

-- ---------------------------------------------------------------------------
-- Stable sort (embeds Python's stable `sorted`/`list.sort`)
-- ---------------------------------------------------------------------------

/-- Insert `a` into `l`, before the first element `b` with `le a b`;
the stable insertion step. -/
def sinsert (le : α → α → Bool) (a : α) : List α → List α
  | [] => [a]
  | b :: bs => if le a b then a :: b :: bs else b :: sinsert le a bs

/-- Stable insertion sort.  For a total, transitive `le` this computes the
same list as any stable sort, in particular CPython's. -/
def ssort (le : α → α → Bool) : List α → List α
  | [] => []
  | a :: as => sinsert le a (ssort le as)

theorem mem_sinsert (le : α → α → Bool) (a x : α) (l : List α) :
    x ∈ sinsert le a l ↔ x = a ∨ x ∈ l := by
  induction l with
  | nil => simp [sinsert]
  | cons b bs ih =>
    by_cases h : le a b = true
    · simp [sinsert, h]
    · simp only [sinsert, h, Bool.false_eq_true, if_false, List.mem_cons, ih]
      tauto

theorem sinsert_perm (le : α → α → Bool) (a : α) (l : List α) :
    List.Perm (sinsert le a l) (a :: l) := by
  induction l with
  | nil => simp [sinsert]
  | cons b bs ih =>
    by_cases h : le a b = true
    · simp [sinsert, h]
    · simp only [sinsert, h, Bool.false_eq_true, if_false]
      exact (ih.cons b).trans (List.Perm.swap a b bs)

theorem ssort_perm (le : α → α → Bool) (l : List α) : List.Perm (ssort le l) l := by
  induction l with
  | nil => exact List.Perm.refl _
  | cons a as ih => exact (sinsert_perm le a (ssort le as)).trans (ih.cons a)

theorem pairwise_sinsert {le : α → α → Bool}
    (htot : ∀ a b, le a b = true ∨ le b a = true)
    (htrans : ∀ a b c, le a b = true → le b c = true → le a c = true)
    (a : α) {l : List α} (h : l.Pairwise (fun x y => le x y = true)) :
    (sinsert le a l).Pairwise (fun x y => le x y = true) := by
  induction l with
  | nil => simp [sinsert]
  | cons b bs ih =>
    have hb := (List.pairwise_cons.mp h).1
    have hbs := (List.pairwise_cons.mp h).2
    by_cases hab : le a b = true
    · simp only [sinsert, hab, if_true]
      refine List.Pairwise.cons ?_ h
      intro x hx
      rcases List.mem_cons.mp hx with rfl | hx
      · exact hab
      · exact htrans a b x hab (hb x hx)
    · have hba : le b a = true := (htot a b).resolve_left hab
      simp only [sinsert, hab, Bool.false_eq_true, if_false]
      refine List.Pairwise.cons ?_ (ih hbs)
      intro x hx
      rcases (mem_sinsert le a x bs).mp hx with rfl | hx
      · exact hba
      · exact hb x hx

theorem pairwise_ssort {le : α → α → Bool}
    (htot : ∀ a b, le a b = true ∨ le b a = true)
    (htrans : ∀ a b c, le a b = true → le b c = true → le a c = true)
    (l : List α) : (ssort le l).Pairwise (fun x y => le x y = true) := by
  induction l with
  | nil => simp [ssort]
  | cons a as ih => exact pairwise_sinsert htot htrans a ih

/-- Two lists that are permutations of each other, both sorted w.r.t. `P`,
with `P` antisymmetric on the members, are equal. -/
theorem eq_of_perm_of_pairwise {P : α → α → Prop} :
    ∀ {l₁ l₂ : List α}, List.Perm l₁ l₂ → l₁.Pairwise P → l₂.Pairwise P →
      (∀ a ∈ l₁, ∀ b ∈ l₁, P a b → P b a → a = b) → l₁ = l₂ := by
  intro l₁
  induction l₁ with
  | nil =>
    intro l₂ hp _ _ _
    exact hp.nil_eq
  | cons a t₁ ih =>
    intro l₂ hp h₁ h₂ hanti
    cases l₂ with
    | nil =>
      have := hp.eq_nil
      simp at this
    | cons b t₂ =>
      by_cases hab : a = b
      · subst hab
        have ht : List.Perm t₁ t₂ := hp.cons_inv
        have : t₁ = t₂ := by
          refine ih ht (List.pairwise_cons.mp h₁).2 (List.pairwise_cons.mp h₂).2 ?_
          intro x hx y hy
          exact hanti x (List.mem_cons_of_mem a hx) y (List.mem_cons_of_mem a hy)
        rw [this]
      · exfalso
        have hbmem : b ∈ a :: t₁ := hp.mem_iff.mpr (List.mem_cons_self b t₂)
        have hbt₁ : b ∈ t₁ := by
          rcases List.mem_cons.mp hbmem with h | h
          · exact absurd h.symm hab
          · exact h
        have hamem : a ∈ b :: t₂ := hp.mem_iff.mp (List.mem_cons_self a t₁)
        have hat₂ : a ∈ t₂ := by
          rcases List.mem_cons.mp hamem with h | h
          · exact absurd h hab
          · exact h
        have hPab : P a b := (List.pairwise_cons.mp h₁).1 b hbt₁
        have hPba : P b a := (List.pairwise_cons.mp h₂).1 a hat₂
        exact hab (hanti a (List.mem_cons_self a t₁) b (List.mem_cons_of_mem a hbt₁) hPab hPba)

-- ---------------------------------------------------------------------------
-- Association lists (Python dicts)
-- ---------------------------------------------------------------------------

/-- `dict.get(k)`: first binding of `k`, if any. -/
def aget (m : List (String × α)) (k : String) : Option α :=
  (m.find? (fun kv => kv.1 = k)).map (·.2)

/-- `d[k] = v`: update the first binding of `k` in place, else append. -/
def aset : List (String × α) → String → α → List (String × α)
  | [], k, v => [(k, v)]
  | (k', v') :: rest, k, v =>
    if k' = k then (k, v) :: rest else (k', v') :: aset rest k v

theorem aget_nil (c : String) : aget ([] : List (String × α)) c = none := rfl

theorem aget_cons (k : String) (v : α) (m : List (String × α)) (c : String) :
    aget ((k, v) :: m) c = if k = c then some v else aget m c := by
  by_cases h : k = c <;> simp [aget, List.find?_cons, h]

theorem aget_aset_ne (m : List (String × α)) (k c : String) (v : α) (h : k ≠ c) :
    aget (aset m k v) c = aget m c := by
  induction m with
  | nil => simp [aset, aget_cons, h, aget_nil]
  | cons p rest ih =>
    obtain ⟨k', v'⟩ := p
    by_cases hk : k' = k
    · have hkc : ¬ (k' = c) := fun hh => h (hk ▸ hh)
      simp [aset, hk, aget_cons, h, hkc]
    · simp [aset, hk, aget_cons, ih]

/-- `grupos.setdefault(cat, []).append(a)`: append `a` to the bucket of key
`k`, creating the bucket at the end if it does not exist yet. -/
def groupAdd : List (String × List α) → String → α → List (String × List α)
  | [], k, a => [(k, [a])]
  | (k', b) :: rest, k, a =>
    if k' = k then (k', b ++ [a]) :: rest else (k', b) :: groupAdd rest k a

/-- Group a list of `(key, value)` pairs into buckets, preserving first-seen
key order and in-bucket value order — the `for … setdefault(…).append(…)`
grouping loop of `assign_versions` / `assign_versions_from_ocr`. -/
def groupPairs (l : List (String × α)) : List (String × List α) :=
  l.foldl (fun gs p => groupAdd gs p.1 p.2) []

/-- The values of `l` whose key is `c`, in input order. -/
def bucketOf (l : List (String × α)) (c : String) : List α :=
  (l.filter (fun p => p.1 = c)).map (·.2)

theorem bucketOf_nil (c : String) : bucketOf ([] : List (String × α)) c = [] := rfl

theorem bucketOf_cons (k : String) (a : α) (l : List (String × α)) (c : String) :
    bucketOf ((k, a) :: l) c = if k = c then a :: bucketOf l c else bucketOf l c := by
  by_cases h : k = c <;> simp [bucketOf, List.filter_cons, h]

theorem aget_groupAdd (gs : List (String × List α)) (k : String) (a : α) (c : String) :
    aget (groupAdd gs k a) c =
      if k = c then
        (match aget gs c with
         | some b => some (b ++ [a])
         | none => some [a])
      else aget gs c := by
  induction gs with
  | nil =>
    by_cases h : k = c <;> simp [groupAdd, aget_cons, aget_nil, h]
  | cons p rest ih =>
    obtain ⟨k', b⟩ := p
    by_cases hk : k' = k
    · by_cases hc : k' = c
      · have hkc : k = c := hk ▸ hc
        simp [groupAdd, hk, aget_cons, hc, hkc]
      · have hkc : ¬ (k = c) := fun h => hc (hk.trans h)
        simp [groupAdd, hk, aget_cons, hc, hkc]
    · by_cases hc : k' = c
      · have hkc : ¬ (k = c) := fun h => hk (hc.trans h.symm)
        have hck : ¬ (c = k) := fun h => hkc h.symm
        simp [groupAdd, hk, aget_cons, hc, hkc, hck]
      · simp [groupAdd, hk, aget_cons, hc, ih]

theorem aget_groupPairs_fold (l : List (String × α)) :
    ∀ (gs : List (String × List α)) (c : String),
      aget (l.foldl (fun gs p => groupAdd gs p.1 p.2) gs) c =
        match aget gs c, bucketOf l c with
        | some b, f => some (b ++ f)
        | none, [] => none
        | none, f => some f := by
  induction l with
  | nil =>
    intro gs c
    simp only [List.foldl_nil, bucketOf_nil]
    cases aget gs c <;> simp
  | cons p rest ih =>
    intro gs c
    obtain ⟨k, a⟩ := p
    simp only [List.foldl_cons, ih (groupAdd gs k a) c, aget_groupAdd, bucketOf_cons]
    by_cases hkc : k = c
    · simp only [hkc, if_pos rfl]
      cases h : aget gs c with
      | some b => simp
      | none => simp
    · simp only [hkc, if_false]

theorem aget_groupPairs_of_ne_nil (l : List (String × α)) (c : String)
    (h : bucketOf l c ≠ []) :
    aget (groupPairs l) c = some (bucketOf l c) := by
  have hh := aget_groupPairs_fold l [] c
  simp only [aget_nil] at hh
  cases hf : bucketOf l c with
  | nil => exact absurd hf h
  | cons x xs =>
    rw [hf] at hh
    simpa [groupPairs] using hh

theorem aget_groupPairs_of_nil (l : List (String × α)) (c : String)
    (h : bucketOf l c = []) :
    aget (groupPairs l) c = none := by
  have hh := aget_groupPairs_fold l [] c
  simp only [aget_nil] at hh
  rw [h] at hh
  simpa [groupPairs] using hh

/-- The concatenation of all buckets after one `groupAdd` step is a
permutation of the added value consed on the previous concatenation. -/
theorem join_groupAdd (gs : List (String × List α)) (k : String) (a : α) :
    List.Perm ((groupAdd gs k a).map (·.2)).flatten (a :: (gs.map (·.2)).flatten) := by
  induction gs with
  | nil => simp [groupAdd]
  | cons p rest ih =>
    obtain ⟨k', b⟩ := p
    by_cases hk : k' = k
    · simp only [groupAdd]
      rw [if_pos hk]
      simp only [List.map_cons, List.flatten_cons]
      exact (List.perm_append_singleton a b).append_right _
    · simp only [groupAdd]
      rw [if_neg hk]
      simp only [List.map_cons, List.flatten_cons]
      exact (List.Perm.append_left b ih).trans List.perm_middle

/-- Every input value appears in the concatenation of the buckets exactly as
often as in the input: grouping drops and duplicates nothing. -/
theorem join_groupPairs (l : List (String × α)) :
    List.Perm ((groupPairs l).map (·.2)).flatten (l.map (·.2)) := by
  suffices h : ∀ gs : List (String × List α),
      List.Perm ((l.foldl (fun gs p => groupAdd gs p.1 p.2) gs).map (·.2)).flatten
        ((gs.map (·.2)).flatten ++ l.map (·.2)) by
    simpa [groupPairs] using h []
  induction l with
  | nil => intro gs; simp
  | cons p rest ih =>
    intro gs
    obtain ⟨k, a⟩ := p
    simp only [List.foldl_cons, List.map_cons]
    refine (ih (groupAdd gs k a)).trans ?_
    refine ((join_groupAdd gs k a).append_right _).trans ?_
    exact List.perm_middle.symm

-- ---------------------------------------------------------------------------
-- Versioning agent (src/agents/versioning_agent.py)
-- ---------------------------------------------------------------------------

/-- One entry of `classification_results` (input of `assign_versions`).
`clasificacion` is `none` when the key is absent (`item.get("clasificacion",
"otros")` then falls back to `"otros"`); an absent or `None` date behaves
exactly like `""` through the `or`-chain, so `fecha` is a plain string. -/
structure ClassItem where
  filename : String
  clasificacion : Option String
  fecha : String
deriving DecidableEq, Repr

/-- One entry of `date_results` (input of `assign_versions`). -/
structure DateItem where
  filename : String
  fecha_mas_antigua : String
  fecha_mas_reciente : String
deriving DecidableEq, Repr

/-- The `{filename, fecha}` dicts the grouping loop of `assign_versions`
builds and the sort then orders. -/
structure PDoc where
  filename : String
  fecha : String
deriving DecidableEq, Repr

/-- One entry of a versioned chain: `{"filename": …, "fecha": …, "version": …}`. -/
structure VDoc where
  filename : String
  fecha : String
  version : Nat
deriving DecidableEq, Repr

/-- Python's `a or b` for strings (`None` encoded as `""`). -/
def pyOr (a b : String) : String := if a = "" then b else a

/-- The `fechas_map` comprehension of `assign_versions`: keyed by filename,
later entries overwrite earlier ones. -/
def fechasMap (date_results : List DateItem) (fn : String) : Option DateItem :=
  date_results.reverse.find? (fun d => d.filename = fn)

/-- The `{filename, fecha}` dict built for one classification item:
`fecha = fechas_map.get(fn, {}).get("fecha_mas_antigua") or item.get("fecha") or ""`. -/
def mkPDoc (date_results : List DateItem) (it : ClassItem) : PDoc :=
  { filename := it.filename
    fecha :=
      pyOr (match fechasMap date_results it.filename with
            | some d => d.fecha_mas_antigua
            | none => "")
        (pyOr it.fecha "") }

/-- `item.get("clasificacion", "otros")`. -/
def catOf (it : ClassItem) : String := it.clasificacion.getD "otros"

/-- Sort comparison of `assign_versions`: key `( _to_dt(fecha), filename )`,
tuples compared lexicographically.  (It is only ever applied to documents
whose date parses; the `getD 0` branch is unreachable there.) -/
def conFechaLe (a b : PDoc) : Bool :=
  ((_to_dt a.fecha).getD 0 < (_to_dt b.fecha).getD 0) ||
    ((_to_dt a.fecha).getD 0 = (_to_dt b.fecha).getD 0 && strLe a.filename b.filename)

/-- Sort comparison for the undated tail: key `filename`. -/
def filenameLe (a b : PDoc) : Bool := strLe a.filename b.filename

/-- `enumerate(ordenados, start=1)` plus the output-dict construction:
turn the ordered documents into `{"filename", "fecha", "version"}` entries. -/
def withVersions : List PDoc → Nat → List VDoc
  | [], _ => []
  | d :: ds, i => ⟨d.filename, d.fecha, i⟩ :: withVersions ds (i + 1)

/-- The per-category body of `assign_versions` (split into `con_fecha` /
`sin_fecha`, sort, concatenate, number). -/
def orderAndVersion (docs : List PDoc) : List VDoc :=
  withVersions
    (ssort conFechaLe (docs.filter (fun d => (_to_dt d.fecha).isSome)) ++
      ssort filenameLe (docs.filter (fun d => ¬ (_to_dt d.fecha).isSome))) 1

/-- `VersioningAgent.assign_versions`: group by category, order each bucket
(dated ascending by `(date, filename)`, undated alphabetical at the tail),
and number `1..N`.  The result dict is in first-seen category order. -/
def assign_versions (classification_results : List ClassItem)
    (date_results : List DateItem) : List (String × List VDoc) :=
  (groupPairs (classification_results.map
      (fun it => (catOf it, mkPDoc date_results it)))).map
    (fun g => (g.1, orderAndVersion g.2))

/-- One entry of `documentos_procesados` in `assign_versions_from_ocr`: the
per-document result of the external LLM classification and date-extraction
calls (`categoria` is the classifier output, lower-cased and stripped, or
`"otros"` on exception; `fecha` is the normalised extracted date, the
verbatim LLM reply when no `dd-mm-yyyy` pattern was found, or `"NO_FECHA"`). -/
structure ProcDoc where
  filename : String
  categoria : String
  fecha : String
  text : String
deriving DecidableEq, Repr

/-- `parse_fecha` inside `assign_versions_from_ocr`: `strptime` with
`datetime.max` as sentinel for unparseable dates. -/
def parse_fecha (s : String) : Nat := (_to_dt s).getD dtMaxCode

/-- Sort comparison of `assign_versions_from_ocr`'s dated partition:
key `parse_fecha(fecha)` only — no filename tie-break. -/
def ocrFechaLe (a b : ProcDoc) : Bool := parse_fecha a.fecha ≤ parse_fecha b.fecha

/-- Alphabetical comparison for the `NO_FECHA` partition. -/
def ocrFilenameLe (a b : ProcDoc) : Bool := strLe a.filename b.filename

/-- The per-category body of `assign_versions_from_ocr` (lines 175–201 of
`versioning_agent.py`): split on the `NO_FECHA` sentinel, sort the dated part
by parsed date only (stable, unparseable dates keyed `datetime.max`), sort
the rest alphabetically, concatenate and number from 1. -/
def orderAndVersionOcr (docs : List ProcDoc) : List VDoc :=
  withVersions
    ((ssort ocrFechaLe (docs.filter (fun d => d.fecha ≠ "NO_FECHA")) ++
      ssort ocrFilenameLe (docs.filter (fun d => ¬ (d.fecha ≠ "NO_FECHA")))).map
      (fun d => PDoc.mk d.filename d.fecha)) 1

/-- `VersioningAgent.assign_versions_from_ocr`, embedded from
`documentos_procesados` onward (the preceding per-document loop only invokes
the external LLM collaborators to fill in `categoria`/`fecha`): group by
`categoria`, order, and number each bucket. -/
def assign_versions_from_ocr (documentos_procesados : List ProcDoc) :
    List (String × List VDoc) :=
  (groupPairs (documentos_procesados.map (fun d => (d.categoria, d)))).map
    (fun g => (g.1, orderAndVersionOcr g.2))

example : _to_dt "10-01-2020" = some 20200110 := by decide
example : _to_dt "5-1-2020" = some 20200105 := by decide
example : _to_dt "NO_FECHA" = none := by decide
example : _to_dt "31-12-9999" = some dtMaxCode := by decide
example : _to_dt "29-02-2021" = none := by decide
example : _to_dt "29-02-2020" = some 20200229 := by decide
example : _to_dt "10-01-20" = none := by decide
example : _to_dt "" = none := by decide
example :
    assign_versions
      [⟨"b.pdf", some "c", "10-01-2020"⟩, ⟨"a.pdf", some "c", "10-01-2020"⟩,
       ⟨"z.pdf", some "c", ""⟩] [] =
      [("c", [⟨"a.pdf", "10-01-2020", 1⟩, ⟨"b.pdf", "10-01-2020", 2⟩,
              ⟨"z.pdf", "", 3⟩])] := by decide
example :
    assign_versions_from_ocr
      [⟨"b.pdf", "escritura", "10-01-2020", "tb"⟩,
       ⟨"a.pdf", "escritura", "10-01-2020", "ta"⟩] =
      [("escritura", [⟨"b.pdf", "10-01-2020", 1⟩, ⟨"a.pdf", "10-01-2020", 2⟩])] := by
  decide

-- ---------------------------------------------------------------------------
-- Properties of the version assigner
-- ---------------------------------------------------------------------------

theorem withVersions_map_version (l : List PDoc) :
    ∀ n, (withVersions l n).map (·.version) = List.range' n l.length := by
  induction l with
  | nil => intro n; rfl
  | cons d ds ih =>
    intro n
    simp [withVersions, List.range', ih (n + 1)]

theorem withVersions_map_pd (l : List PDoc) :
    ∀ n, (withVersions l n).map (fun v => PDoc.mk v.filename v.fecha) = l := by
  induction l with
  | nil => intro n; rfl
  | cons d ds ih =>
    intro n
    simp [withVersions, ih (n + 1)]

theorem withVersions_length (l : List PDoc) :
    ∀ n, (withVersions l n).length = l.length := by
  induction l with
  | nil => intro n; rfl
  | cons d ds ih => intro n; simp [withVersions, ih (n + 1)]

/-- The chain order the assigner is supposed to establish: dated documents
ascend by `(parsed date, filename)`, dated documents precede undated ones,
and undated documents ascend alphabetically. -/
def chainRel (a b : VDoc) : Prop :=
  match _to_dt a.fecha, _to_dt b.fecha with
  | some ta, some tb => ta < tb ∨ (ta = tb ∧ strLe a.filename b.filename = true)
  | some _, none => True
  | none, some _ => False
  | none, none => strLe a.filename b.filename = true

/-- The same order on the pre-numbering `{filename, fecha}` dicts. -/
def pdRel (a b : PDoc) : Prop :=
  match _to_dt a.fecha, _to_dt b.fecha with
  | some ta, some tb => ta < tb ∨ (ta = tb ∧ strLe a.filename b.filename = true)
  | some _, none => True
  | none, some _ => False
  | none, none => strLe a.filename b.filename = true

theorem conFechaLe_total (a b : PDoc) : conFechaLe a b = true ∨ conFechaLe b a = true := by
  unfold conFechaLe
  rcases Nat.lt_trichotomy ((_to_dt a.fecha).getD 0) ((_to_dt b.fecha).getD 0) with h | h | h
  · left; simp [h]
  · rcases strLe_total a.filename b.filename with hs | hs
    · left; simp [h, hs]
    · right; simp [h.symm, hs]
  · right; simp [h]

theorem conFechaLe_trans (a b c : PDoc) :
    conFechaLe a b = true → conFechaLe b c = true → conFechaLe a c = true := by
  unfold conFechaLe
  simp only [Bool.or_eq_true, Bool.and_eq_true, decide_eq_true_eq]
  intro hab hbc
  rcases hab with hab | ⟨hab, hab'⟩
  · rcases hbc with hbc | ⟨hbc, _⟩
    · exact Or.inl (Nat.lt_trans hab hbc)
    · exact Or.inl (hbc ▸ hab)
  · rcases hbc with hbc | ⟨hbc, hbc'⟩
    · exact Or.inl (hab ▸ hbc)
    · exact Or.inr ⟨hab.trans hbc, strLe_trans _ _ _ hab' hbc'⟩

theorem filenameLe_total (a b : PDoc) : filenameLe a b = true ∨ filenameLe b a = true :=
  strLe_total a.filename b.filename

theorem filenameLe_trans (a b c : PDoc) :
    filenameLe a b = true → filenameLe b c = true → filenameLe a c = true :=
  strLe_trans a.filename b.filename c.filename

theorem ocrFechaLe_total (a b : ProcDoc) : ocrFechaLe a b = true ∨ ocrFechaLe b a = true := by
  unfold ocrFechaLe
  rcases Nat.le_total (parse_fecha a.fecha) (parse_fecha b.fecha) with h | h
  · left; simpa using h
  · right; simpa using h

theorem ocrFechaLe_trans (a b c : ProcDoc) :
    ocrFechaLe a b = true → ocrFechaLe b c = true → ocrFechaLe a c = true := by
  unfold ocrFechaLe
  simp only [decide_eq_true_eq]
  exact Nat.le_trans

theorem ocrFilenameLe_total (a b : ProcDoc) :
    ocrFilenameLe a b = true ∨ ocrFilenameLe b a = true :=
  strLe_total a.filename b.filename

theorem ocrFilenameLe_trans (a b c : ProcDoc) :
    ocrFilenameLe a b = true → ocrFilenameLe b c = true → ocrFilenameLe a c = true :=
  strLe_trans a.filename b.filename c.filename

/-- The body of `assign_versions` orders every bucket by `pdRel`:
dated ascending with alphabetical tie-break, then undated alphabetical. -/
theorem orderAndVersion_pairwise (docs : List PDoc) :
    ((ssort conFechaLe (docs.filter (fun d => (_to_dt d.fecha).isSome)) ++
      ssort filenameLe (docs.filter (fun d => ¬ (_to_dt d.fecha).isSome)))).Pairwise pdRel := by
  rw [List.pairwise_append]
  refine ⟨?_, ?_, ?_⟩
  · have hpw := pairwise_ssort conFechaLe_total conFechaLe_trans
      (docs.filter (fun d => (_to_dt d.fecha).isSome))
    refine hpw.imp_of_mem ?_
    intro a b ha hb hle
    have ha' : (_to_dt a.fecha).isSome :=
      by simpa using (List.mem_filter.mp ((ssort_perm _ _).subset ha)).2
    have hb' : (_to_dt b.fecha).isSome :=
      by simpa using (List.mem_filter.mp ((ssort_perm _ _).subset hb)).2
    unfold pdRel
    obtain ⟨ta, hta⟩ := Option.isSome_iff_exists.mp ha'
    obtain ⟨tb, htb⟩ := Option.isSome_iff_exists.mp hb'
    rw [hta, htb]
    unfold conFechaLe at hle
    rw [hta, htb] at hle
    simpa using hle
  · have hpw := pairwise_ssort filenameLe_total filenameLe_trans
      (docs.filter (fun d => ¬ (_to_dt d.fecha).isSome))
    refine hpw.imp_of_mem ?_
    intro a b ha hb hle
    have ha' : ¬ (_to_dt a.fecha).isSome :=
      by simpa using (List.mem_filter.mp ((ssort_perm _ _).subset ha)).2
    have hb' : ¬ (_to_dt b.fecha).isSome :=
      by simpa using (List.mem_filter.mp ((ssort_perm _ _).subset hb)).2
    unfold pdRel
    rw [Option.not_isSome_iff_eq_none.mp ha', Option.not_isSome_iff_eq_none.mp hb']
    exact hle
  · intro a ha b hb
    have ha' : (_to_dt a.fecha).isSome :=
      by simpa using (List.mem_filter.mp ((ssort_perm _ _).subset ha)).2
    have hb' : ¬ (_to_dt b.fecha).isSome :=
      by simpa using (List.mem_filter.mp ((ssort_perm _ _).subset hb)).2
    unfold pdRel
    obtain ⟨ta, hta⟩ := Option.isSome_iff_exists.mp ha'
    rw [hta, Option.not_isSome_iff_eq_none.mp hb']
    trivial

/-- Every chain computed by `orderAndVersion` carries versions `1..N` and is
sorted by `chainRel`. -/
theorem orderAndVersion_spec (docs : List PDoc) :
    (orderAndVersion docs).map (·.version) =
        List.range' 1 (orderAndVersion docs).length ∧
      (orderAndVersion docs).Pairwise chainRel := by
  unfold orderAndVersion
  constructor
  · rw [withVersions_map_version, withVersions_length]
  · have hpw := orderAndVersion_pairwise docs
    have hmap := withVersions_map_pd
      (ssort conFechaLe (docs.filter (fun d => (_to_dt d.fecha).isSome)) ++
        ssort filenameLe (docs.filter (fun d => ¬ (_to_dt d.fecha).isSome))) 1
    rw [← hmap] at hpw
    rw [List.pairwise_map] at hpw
    exact hpw.imp (fun {a b} h => h)

theorem aget_map_snd (f : α → β) (gs : List (String × α)) (c : String) :
    aget (gs.map (fun g => (g.1, f g.2))) c = (aget gs c).map f := by
  induction gs with
  | nil => rfl
  | cons p rest ih =>
    obtain ⟨k, v⟩ := p
    by_cases h : k = c <;> simp [aget_cons, h, ih]

/-- `conFechaLe` is antisymmetric up to filenames: mutual `≤` forces equal
filenames. -/
theorem conFechaLe_filename_eq (a b : PDoc)
    (hab : conFechaLe a b = true) (hba : conFechaLe b a = true) :
    a.filename = b.filename := by
  unfold conFechaLe at hab hba
  simp only [Bool.or_eq_true, Bool.and_eq_true, decide_eq_true_eq] at hab hba
  rcases hab with hab | ⟨hab, hab'⟩
  · rcases hba with hba | ⟨hba, _⟩
    · exact absurd hba (Nat.lt_asymm hab)
    · exact absurd (hba ▸ hab) (Nat.lt_irrefl _)
  · rcases hba with hba | ⟨_, hba'⟩
    · exact absurd (hab ▸ hba) (Nat.lt_irrefl _)
    · exact strLe_antisymm _ _ hab' hba'

/-- `orderAndVersion` is a function of the input multiset alone, provided
filenames are pairwise distinct. -/
theorem orderAndVersion_perm_eq (docs₁ docs₂ : List PDoc)
    (hperm : List.Perm docs₁ docs₂)
    (hnd : (docs₁.map PDoc.filename).Nodup) :
    orderAndVersion docs₁ = orderAndVersion docs₂ := by
  have hinj : ∀ a ∈ docs₁, ∀ b ∈ docs₁, a.filename = b.filename → a = b := by
    intro a ha b hb h
    exact List.inj_on_of_nodup_map hnd ha hb h
  have hconp :
      List.Perm (docs₁.filter (fun d => (_to_dt d.fecha).isSome))
        (docs₂.filter (fun d => (_to_dt d.fecha).isSome)) := hperm.filter _
  have hsinp :
      List.Perm (docs₁.filter (fun d => ¬ (_to_dt d.fecha).isSome))
        (docs₂.filter (fun d => ¬ (_to_dt d.fecha).isSome)) := hperm.filter _
  have hcon :
      ssort conFechaLe (docs₁.filter (fun d => (_to_dt d.fecha).isSome)) =
        ssort conFechaLe (docs₂.filter (fun d => (_to_dt d.fecha).isSome)) := by
    refine eq_of_perm_of_pairwise
      (((ssort_perm _ _).trans hconp).trans (ssort_perm _ _).symm)
      (pairwise_ssort conFechaLe_total conFechaLe_trans _)
      (pairwise_ssort conFechaLe_total conFechaLe_trans _) ?_
    intro a ha b hb hab hba
    have ha' : a ∈ docs₁ := (List.mem_filter.mp ((ssort_perm _ _).subset ha)).1
    have hb' : b ∈ docs₁ := (List.mem_filter.mp ((ssort_perm _ _).subset hb)).1
    exact hinj a ha' b hb' (conFechaLe_filename_eq a b hab hba)
  have hsin :
      ssort filenameLe (docs₁.filter (fun d => ¬ (_to_dt d.fecha).isSome)) =
        ssort filenameLe (docs₂.filter (fun d => ¬ (_to_dt d.fecha).isSome)) := by
    refine eq_of_perm_of_pairwise
      (((ssort_perm _ _).trans hsinp).trans (ssort_perm _ _).symm)
      (pairwise_ssort filenameLe_total filenameLe_trans _)
      (pairwise_ssort filenameLe_total filenameLe_trans _) ?_
    intro a ha b hb hab hba
    have ha' : a ∈ docs₁ := (List.mem_filter.mp ((ssort_perm _ _).subset ha)).1
    have hb' : b ∈ docs₁ := (List.mem_filter.mp ((ssort_perm _ _).subset hb)).1
    exact hinj a ha' b hb' (strLe_antisymm _ _ hab hba)
  unfold orderAndVersion
  rw [hcon, hsin]

/-- Per-category reproducibility of `assign_versions`: permuting the input
(with pairwise-distinct filenames) leaves every category's chain unchanged. -/
theorem assign_versions_perm_eq (cls₁ cls₂ : List ClassItem) (dres : List DateItem)
    (hperm : List.Perm cls₁ cls₂)
    (hnd : (cls₁.map ClassItem.filename).Nodup) (cat : String) :
    aget (assign_versions cls₁ dres) cat = aget (assign_versions cls₂ dres) cat := by
  unfold assign_versions
  rw [aget_map_snd, aget_map_snd]
  have hpl : List.Perm (cls₁.map (fun it => (catOf it, mkPDoc dres it)))
      (cls₂.map (fun it => (catOf it, mkPDoc dres it))) := hperm.map _
  have hb : List.Perm (bucketOf (cls₁.map (fun it => (catOf it, mkPDoc dres it))) cat)
      (bucketOf (cls₂.map (fun it => (catOf it, mkPDoc dres it))) cat) :=
    (hpl.filter _).map _
  cases h1 : bucketOf (cls₁.map (fun it => (catOf it, mkPDoc dres it))) cat with
  | nil =>
    have h2 : bucketOf (cls₂.map (fun it => (catOf it, mkPDoc dres it))) cat = [] :=
      ((h1 ▸ hb).nil_eq).symm
    rw [aget_groupPairs_of_nil _ _ h1, aget_groupPairs_of_nil _ _ h2]
  | cons x xs =>
    have h2ne : bucketOf (cls₂.map (fun it => (catOf it, mkPDoc dres it))) cat ≠ [] := by
      intro h
      rw [h1, h] at hb
      simpa using hb.eq_nil
    rw [aget_groupPairs_of_ne_nil _ _ (by rw [h1]; simp),
      aget_groupPairs_of_ne_nil _ _ h2ne]
    simp only [Option.map_some']
    have hfn : (bucketOf (cls₁.map (fun it => (catOf it, mkPDoc dres it))) cat).map
        PDoc.filename =
        ((cls₁.map (fun it => (catOf it, mkPDoc dres it))).filter
          (fun p => p.1 = cat)).map (fun p => p.2.filename) := by
      simp [bucketOf, List.map_map]
    have hsub : List.Sublist
        (((cls₁.map (fun it => (catOf it, mkPDoc dres it))).filter
          (fun p => p.1 = cat)).map (fun p => p.2.filename))
        ((cls₁.map (fun it => (catOf it, mkPDoc dres it))).map (fun p => p.2.filename)) :=
      (List.filter_sublist _).map _
    have hmm : (cls₁.map (fun it => (catOf it, mkPDoc dres it))).map
        (fun p => p.2.filename) = cls₁.map ClassItem.filename := by
      simp [List.map_map, mkPDoc]
    have hndb : ((bucketOf (cls₁.map (fun it => (catOf it, mkPDoc dres it))) cat).map
        PDoc.filename).Nodup := by
      rw [hfn]
      exact (hmm ▸ hsub).nodup hnd
    congr 1
    exact orderAndVersion_perm_eq _ _ (h1 ▸ hb) (h1 ▸ hndb)

theorem orderAndVersionOcr_versions (docs : List ProcDoc) :
    (orderAndVersionOcr docs).map (·.version) =
      List.range' 1 (orderAndVersionOcr docs).length := by
  unfold orderAndVersionOcr
  rw [withVersions_map_version, withVersions_length]

-- ---------------------------------------------------------------------------
-- Claims C1, C4, C9
-- ---------------------------------------------------------------------------

/-- C1, counterexample: `assign_versions_from_ocr` sorts the dated documents
by parsed date only, with no filename tie-break.  Two documents with the same
parsed date `10-01-2020` keep their input order: fed `b.pdf` before `a.pdf`
the chain is `[b.pdf, a.pdf]`, fed the other way round it is
`[a.pdf, b.pdf]` — not alphabetical, and not independent of input order. -/
theorem C1_counterexample :
    assign_versions_from_ocr
        [⟨"b.pdf", "escritura", "10-01-2020", "tb"⟩,
         ⟨"a.pdf", "escritura", "10-01-2020", "ta"⟩] =
      [("escritura", [⟨"b.pdf", "10-01-2020", 1⟩, ⟨"a.pdf", "10-01-2020", 2⟩])] ∧
    assign_versions_from_ocr
        [⟨"a.pdf", "escritura", "10-01-2020", "ta"⟩,
         ⟨"b.pdf", "escritura", "10-01-2020", "tb"⟩] =
      [("escritura", [⟨"a.pdf", "10-01-2020", 1⟩, ⟨"b.pdf", "10-01-2020", 2⟩])] ∧
    strLe "b.pdf" "a.pdf" = false := by
  decide

/-- C1 (amended): `assign_versions` (the chronological version assigner fed
by pre-extracted dates) does sort every chain ascending by the pair
`(parsed date, filename)`, and — for inputs with pairwise-distinct
filenames — each category's chain is the same for any input order.
`assign_versions_from_ocr`, by contrast, sorts dated documents by parsed
date only, ties keeping input order (see the counterexample). -/
theorem C1_amended :
    (∀ (cls : List ClassItem) (dres : List DateItem) (cat : String) (chain : List VDoc),
        (cat, chain) ∈ assign_versions cls dres →
          chain.Pairwise (fun a b => ∀ ta tb, _to_dt a.fecha = some ta →
            _to_dt b.fecha = some tb →
            (ta < tb ∨ (ta = tb ∧ strLe a.filename b.filename = true)))) ∧
    (∀ (cls₁ cls₂ : List ClassItem) (dres : List DateItem) (cat : String),
        List.Perm cls₁ cls₂ → (cls₁.map ClassItem.filename).Nodup →
          aget (assign_versions cls₁ dres) cat =
            aget (assign_versions cls₂ dres) cat) := by
  constructor
  · intro cls dres cat chain hmem
    obtain ⟨g, _, heq⟩ := List.mem_map.mp hmem
    have hchain : chain = orderAndVersion g.2 := ((Prod.mk.injEq _ _ _ _).mp heq).2.symm
    subst hchain
    refine (orderAndVersion_spec g.2).2.imp ?_
    intro a b h ta tb hta htb
    unfold chainRel at h
    rw [hta, htb] at h
    exact h
  · intro cls₁ cls₂ dres cat hperm hnd
    exact assign_versions_perm_eq cls₁ cls₂ dres hperm hnd cat

theorem C1_witness :
    ([⟨"a.pdf", "10-01-2020", 1⟩, ⟨"b.pdf", "10-01-2020", 2⟩] : List VDoc).Pairwise
        (fun a b => ∀ ta tb, _to_dt a.fecha = some ta → _to_dt b.fecha = some tb →
          (ta < tb ∨ (ta = tb ∧ strLe a.filename b.filename = true))) ∧
    aget (assign_versions
        [⟨"b.pdf", some "c", "10-01-2020"⟩, ⟨"a.pdf", some "c", "10-01-2020"⟩] []) "c" =
      aget (assign_versions
        [⟨"a.pdf", some "c", "10-01-2020"⟩, ⟨"b.pdf", some "c", "10-01-2020"⟩] []) "c" :=
  ⟨C1_amended.1 [⟨"b.pdf", some "c", "10-01-2020"⟩, ⟨"a.pdf", some "c", "10-01-2020"⟩]
      [] "c" [⟨"a.pdf", "10-01-2020", 1⟩, ⟨"b.pdf", "10-01-2020", 2⟩] (by decide),
    C1_amended.2 [⟨"b.pdf", some "c", "10-01-2020"⟩, ⟨"a.pdf", some "c", "10-01-2020"⟩]
      [⟨"a.pdf", some "c", "10-01-2020"⟩, ⟨"b.pdf", some "c", "10-01-2020"⟩]
      [] "c" (by decide) (by decide)⟩

/-- C4, counterexample: in `assign_versions_from_ocr` a document whose
`fecha` is neither `"NO_FECHA"` nor parseable (here `"fecha ilegible"`,
produced verbatim when the LLM reply contains no `dd-mm-yyyy` pattern) lands
in the dated partition with sort key `datetime.max`.  The resulting chain
puts undated `z.pdf` before undated `a.pdf`: the documents without a
parseable date are neither all at the tail in alphabetical order nor behind
the `NO_FECHA` ones. -/
theorem C4_counterexample :
    assign_versions_from_ocr
        [⟨"z.pdf", "escritura", "fecha ilegible", "tz"⟩,
         ⟨"a.pdf", "escritura", "NO_FECHA", "ta"⟩] =
      [("escritura", [⟨"z.pdf", "fecha ilegible", 1⟩, ⟨"a.pdf", "NO_FECHA", 2⟩])] ∧
    _to_dt "fecha ilegible" = none ∧ _to_dt "NO_FECHA" = none ∧
    strLe "z.pdf" "a.pdf" = false := by
  decide

/-- C4 (amended): every chain of `assign_versions` has versions exactly
`1..N` and is ordered by `chainRel` (dated ascending with alphabetical
tie-break, dated before undated, undated alphabetical at the tail); every
chain of `assign_versions_from_ocr` also has versions exactly `1..N`, but
its order sorts non-`NO_FECHA` unparseable dates among the dated documents
with a `datetime.max` key in input order (see the counterexample). -/
theorem C4_amended :
    (∀ (cls : List ClassItem) (dres : List DateItem) (cat : String) (chain : List VDoc),
        (cat, chain) ∈ assign_versions cls dres →
          chain.map (·.version) = List.range' 1 chain.length ∧
            chain.Pairwise chainRel) ∧
    (∀ (docs : List ProcDoc) (cat : String) (chain : List VDoc),
        (cat, chain) ∈ assign_versions_from_ocr docs →
          chain.map (·.version) = List.range' 1 chain.length) := by
  constructor
  · intro cls dres cat chain hmem
    obtain ⟨g, _, heq⟩ := List.mem_map.mp hmem
    have hchain : chain = orderAndVersion g.2 := ((Prod.mk.injEq _ _ _ _).mp heq).2.symm
    subst hchain
    exact orderAndVersion_spec g.2
  · intro docs cat chain hmem
    obtain ⟨g, _, heq⟩ := List.mem_map.mp hmem
    have hchain : chain = orderAndVersionOcr g.2 := ((Prod.mk.injEq _ _ _ _).mp heq).2.symm
    subst hchain
    exact orderAndVersionOcr_versions g.2

theorem C4_witness :
    (([⟨"a.pdf", "10-01-2020", 1⟩, ⟨"z.pdf", "", 2⟩] : List VDoc).map (·.version) =
        List.range' 1 ([⟨"a.pdf", "10-01-2020", 1⟩, ⟨"z.pdf", "", 2⟩] : List VDoc).length ∧
      ([⟨"a.pdf", "10-01-2020", 1⟩, ⟨"z.pdf", "", 2⟩] : List VDoc).Pairwise chainRel) ∧
    ([⟨"b.pdf", "10-01-2020", 1⟩, ⟨"a.pdf", "10-01-2020", 2⟩] : List VDoc).map (·.version) =
      List.range' 1 2 :=
  ⟨C4_amended.1 [⟨"z.pdf", some "c", ""⟩, ⟨"a.pdf", some "c", "10-01-2020"⟩] [] "c"
      [⟨"a.pdf", "10-01-2020", 1⟩, ⟨"z.pdf", "", 2⟩] (by decide),
    C4_amended.2 [⟨"b.pdf", "escritura", "10-01-2020", "tb"⟩,
        ⟨"a.pdf", "escritura", "10-01-2020", "ta"⟩] "escritura"
      [⟨"b.pdf", "10-01-2020", 1⟩, ⟨"a.pdf", "10-01-2020", 2⟩] (by decide)⟩

/-- C9: the grouping step of both versioning entry points places every input
document in exactly one bucket exactly once — the concatenation of the
buckets is a permutation of the (per-item mapped) input — and every
document, whatever its category string (the grouping has no category
vocabulary check at all, so unknown categories become their own bucket),
is found in the bucket named by its category. -/
theorem C9_theorem :
    (∀ (cls : List ClassItem) (dres : List DateItem),
        List.Perm
          (((groupPairs (cls.map (fun it => (catOf it, mkPDoc dres it)))).map (·.2)).flatten)
          (cls.map (mkPDoc dres))) ∧
    (∀ (cls : List ClassItem) (dres : List DateItem) (it : ClassItem), it ∈ cls →
        ∃ bucket,
          aget (groupPairs (cls.map (fun i => (catOf i, mkPDoc dres i)))) (catOf it) =
              some bucket ∧
            mkPDoc dres it ∈ bucket) ∧
    (∀ docs : List ProcDoc,
        List.Perm
          (((groupPairs (docs.map (fun d => (d.categoria, d)))).map (·.2)).flatten) docs) ∧
    (∀ (docs : List ProcDoc) (d : ProcDoc), d ∈ docs →
        ∃ bucket,
          aget (groupPairs (docs.map (fun x => (x.categoria, x)))) d.categoria =
              some bucket ∧
            d ∈ bucket) := by
  refine ⟨?_, ?_, ?_, ?_⟩
  · intro cls dres
    have h := join_groupPairs (cls.map (fun it => (catOf it, mkPDoc dres it)))
    simpa [List.map_map] using h
  · intro cls dres it hit
    have hpair : (catOf it, mkPDoc dres it) ∈
        cls.map (fun i => (catOf i, mkPDoc dres i)) := List.mem_map_of_mem _ hit
    have hmem : mkPDoc dres it ∈
        bucketOf (cls.map (fun i => (catOf i, mkPDoc dres i))) (catOf it) := by
      unfold bucketOf
      exact List.mem_map_of_mem _ (List.mem_filter.mpr ⟨hpair, by simp⟩)
    exact ⟨_, aget_groupPairs_of_ne_nil _ _ (List.ne_nil_of_mem hmem), hmem⟩
  · intro docs
    have h := join_groupPairs (docs.map (fun d => (d.categoria, d)))
    simpa [List.map_map, Function.comp_def, List.map_id'] using h
  · intro docs d hd
    have hpair : (d.categoria, d) ∈ docs.map (fun x => (x.categoria, x)) :=
      List.mem_map_of_mem _ hd
    have hmem : d ∈ bucketOf (docs.map (fun x => (x.categoria, x))) d.categoria := by
      unfold bucketOf
      exact List.mem_map_of_mem _ (List.mem_filter.mpr ⟨hpair, by simp⟩)
    exact ⟨_, aget_groupPairs_of_ne_nil _ _ (List.ne_nil_of_mem hmem), hmem⟩

theorem C9_witness :
    (∃ bucket,
        aget (groupPairs ([⟨"x.pdf", some "categoria desconocida", ""⟩].map
            (fun i => (catOf i, mkPDoc [] i)))) "categoria desconocida" =
            some bucket ∧
          mkPDoc [] ⟨"x.pdf", some "categoria desconocida", ""⟩ ∈ bucket) ∧
    (∃ bucket,
        aget (groupPairs ([(⟨"y.pdf", "otros", "NO_FECHA", "t"⟩ : ProcDoc)].map
            (fun x => (x.categoria, x)))) "otros" =
            some bucket ∧
          (⟨"y.pdf", "otros", "NO_FECHA", "t"⟩ : ProcDoc) ∈ bucket) :=
  ⟨(C9_theorem.2.1) [⟨"x.pdf", some "categoria desconocida", ""⟩] []
      ⟨"x.pdf", some "categoria desconocida", ""⟩ (by decide),
    (C9_theorem.2.2.2) [⟨"y.pdf", "otros", "NO_FECHA", "t"⟩]
      ⟨"y.pdf", "otros", "NO_FECHA", "t"⟩ (by decide)⟩

-- ---------------------------------------------------------------------------
-- Report generator (src/agents/report_generator_agent.py)
-- ---------------------------------------------------------------------------

/-- One entry of `ocr_results`: `{filename, text, …}` (a `None` text behaves
like `""` through `d.get("text") or ""`). -/
structure OcrDoc where
  filename : String
  text : String
deriving DecidableEq, Repr

/-- `_ocr_text_by_filename`: a dict comprehension keyed by filename (later
entries overwrite earlier ones), looked up with default `""`. -/
def _ocr_text_by_filename (ocr_results : List OcrDoc) (filename : String) : String :=
  match ocr_results.reverse.find? (fun d => d.filename = filename) with
  | some d => d.text
  | none => ""

/-- Python falsy-or-whitespace-only test for a string value:
`not value or not value.strip()`. -/
def isBlank (s : String) : Bool := s.data.all (fun c => c.isWhitespace)

/-- Truthiness of an optional field value: `data.get(f)` missing or blank. -/
def blankOb : Option String → Bool
  | none => true
  | some v => isBlank v

/-- `ReportGeneratorAgent._get_empty_fields`: the keys of `data` whose value
is empty or whitespace-only, in key order. -/
def _get_empty_fields (data : List (String × String)) : List String :=
  (data.filter (fun kv => isBlank kv.2)).map (·.1)

/-- `ReportGeneratorAgent._parse_fecha`: `strptime` with `datetime.min` as
sentinel for unparseable dates. -/
def _parse_fecha (s : String) : Nat := (_to_dt s).getD dtMinCode

/-- Comparison behind `sorted(escritura_docs, key=_parse_fecha, reverse=True)`:
stable descending by parsed date. -/
def fechaDescLe (a b : VDoc) : Bool := _parse_fecha b.fecha ≤ _parse_fecha a.fecha

/-- The inner `for field in empty_fields[:]` loop for one older document:
for every still-empty field whose value in `doc_result` is truthy and not
whitespace-only, write it into the record and remove it from `empty_fields`.
The iteration runs over the snapshot list (first argument), the accumulator
carries the live `(result, empty_fields)` pair. -/
def fillFold (doc_result : List (String × String)) :
    List String → List (String × String) × List String →
      List (String × String) × List String
  | [], acc => acc
  | g :: L, acc =>
    match aget doc_result g with
    | some v =>
        if isBlank v then fillFold doc_result L acc
        else fillFold doc_result L (aset acc.1 g v, acc.2.erase g)
    | none => fillFold doc_result L acc

/-- One older document's contribution: iterate the snapshot `empty_fields[:]`. -/
def fillFromDoc (doc_result : List (String × String))
    (res : List (String × String)) (empty_fields : List String) :
    List (String × String) × List String :=
  fillFold doc_result empty_fields (res, empty_fields)

/-- The `for doc in escritura_docs_sorted[1:]` backfill loop shared by
`_extract_section_with_date_priority` and
`_extract_encabezado_with_date_priority`: stop when no field is empty, skip
documents without text, otherwise extract and fill still-empty fields. -/
def backfill (extract : String → List (String × String)) (ocr_results : List OcrDoc) :
    List VDoc → List (String × String) → List String → List (String × String)
  | [], res, _ => res
  | d :: ds, res, efs =>
    if efs = [] then res
    else
      if _ocr_text_by_filename ocr_results d.filename = "" then
        backfill extract ocr_results ds res efs
      else
        backfill extract ocr_results ds
          (fillFromDoc (extract (_ocr_text_by_filename ocr_results d.filename)) res efs).1
          (fillFromDoc (extract (_ocr_text_by_filename ocr_results d.filename)) res efs).2

/-- `versioning_results.get("escritura", [])`. -/
def escrituraDocs (versioning_results : List (String × List VDoc)) : List VDoc :=
  (aget versioning_results "escritura").getD []

/-- `escritura_docs_sorted`: most recent parsed date first (stable). -/
def escrituraSorted (versioning_results : List (String × List VDoc)) : List VDoc :=
  ssort fechaDescLe (escrituraDocs versioning_results)

/-- `ReportGeneratorAgent._extract_section_with_date_priority`.  The
`extract` argument embeds the external collaborator call
`_extract_section_from_text(seccion, text)` =
`_llm_json(SECCIONES_PROMPT, seccion=…, text=text[:16000]) or {}`
(a malformed LLM response yields `{}`, i.e. `[]`). -/
def _extract_section_with_date_priority
    (extract : String → List (String × String))
    (versioning_results : List (String × List VDoc))
    (ocr_results : List OcrDoc) : List (String × String) :=
  if escrituraDocs versioning_results = [] then []
  else
    match escrituraSorted versioning_results with
    | [] => []
    | latest :: rest =>
      if _ocr_text_by_filename ocr_results latest.filename = "" then []
      else
        backfill extract ocr_results rest
          (extract (_ocr_text_by_filename ocr_results latest.filename))
          (_get_empty_fields
            (extract (_ocr_text_by_filename ocr_results latest.filename)))

/-- The `informesociedad` record with the three requested fields empty —
what the no-documents and no-text branches of
`_extract_encabezado_with_date_priority` return. -/
def encEmptyRecord : List (String × String) :=
  [("razon_social", ""), ("rut", ""), ("nombre_fantasia", "")]

/-- `ReportGeneratorAgent._extract_encabezado_with_date_priority`, embedded
as the inner `informesociedad` record (the code wraps the returned record as
`{"informesociedad": record}`).  The `encExtract` argument embeds
`(_llm_json(ENCABEZADO_PROMPT, text=text) or {}).get("informesociedad", {})`
(a malformed LLM response yields `{}`, i.e. `[]`). -/
def _extract_encabezado_with_date_priority
    (encExtract : String → List (String × String))
    (versioning_results : List (String × List VDoc))
    (ocr_results : List OcrDoc) : List (String × String) :=
  if escrituraDocs versioning_results = [] then encEmptyRecord
  else
    match escrituraSorted versioning_results with
    | [] => encEmptyRecord
    | latest :: rest =>
      if _ocr_text_by_filename ocr_results latest.filename = "" then encEmptyRecord
      else
        backfill encExtract ocr_results rest
          (encExtract (_ocr_text_by_filename ocr_results latest.filename))
          (_get_empty_fields
            (encExtract (_ocr_text_by_filename ocr_results latest.filename)))

example :
    _extract_section_with_date_priority
      (fun t => if t = "T1" then [("a", "x"), ("b", "")] else [("b", "y")])
      [("escritura", [⟨"f0.pdf", "01-01-2020", 1⟩, ⟨"f1.pdf", "02-01-2020", 2⟩])]
      [⟨"f0.pdf", "T0"⟩, ⟨"f1.pdf", "T1"⟩] = [("a", "x"), ("b", "y")] := by decide

theorem aget_aset_eq (m : List (String × String)) (k : String) (v : String) :
    aget (aset m k v) k = some v := by
  induction m with
  | nil => simp [aset, aget_cons]
  | cons p rest ih =>
    obtain ⟨k', v'⟩ := p
    by_cases hk : k' = k
    · simp [aset, hk, aget_cons]
    · simp [aset, hk, aget_cons, ih]

/-- Fields outside the iterated snapshot and the live `empty_fields` list are
untouched by one document's fill pass. -/
theorem fillFold_preserve (dr : List (String × String)) (f : String) :
    ∀ (L : List String) (acc : List (String × String) × List String),
      f ∉ L → f ∉ acc.2 →
        aget (fillFold dr L acc).1 f = aget acc.1 f ∧ f ∉ (fillFold dr L acc).2 := by
  intro L
  induction L with
  | nil => intro acc _ hacc; exact ⟨rfl, hacc⟩
  | cons g L ih =>
    intro acc hL hacc
    have hgf : f ≠ g := fun h => hL (h ▸ List.mem_cons_self g L)
    have hL' : f ∉ L := fun h => hL (List.mem_cons_of_mem g h)
    cases hdr : aget dr g with
    | none => simpa [fillFold, hdr] using ih acc hL' hacc
    | some v =>
      by_cases hbv : isBlank v = true
      · simpa [fillFold, hdr, hbv] using ih acc hL' hacc
      · have hacc' : f ∉ acc.2.erase g := fun h => hacc ((List.erase_sublist g acc.2).subset h)
        have := ih (aset acc.1 g v, acc.2.erase g) hL' hacc'
        rw [aget_aset_ne acc.1 g f v (fun h => hgf h.symm)] at this
        simpa [fillFold, hdr, hbv] using this

/-- Once a field is out of `empty_fields`, the whole backfill loop never
changes it again. -/
theorem backfill_preserve (extract : String → List (String × String))
    (ocr_results : List OcrDoc) (f : String) :
    ∀ (docs : List VDoc) (res : List (String × String)) (efs : List String),
      f ∉ efs → aget (backfill extract ocr_results docs res efs) f = aget res f := by
  intro docs
  induction docs with
  | nil => intro res efs _; rfl
  | cons d ds ih =>
    intro res efs hf
    by_cases hefs : efs = []
    · simp [backfill, hefs]
    · by_cases ht : _ocr_text_by_filename ocr_results d.filename = ""
      · simpa [backfill, hefs, ht] using ih res efs hf
      · have hfill := fillFold_preserve
          (extract (_ocr_text_by_filename ocr_results d.filename)) f efs (res, efs) hf hf
        have := ih (fillFromDoc (extract (_ocr_text_by_filename ocr_results d.filename)) res efs).1
          (fillFromDoc (extract (_ocr_text_by_filename ocr_results d.filename)) res efs).2
          hfill.2
        rw [show (fillFromDoc (extract (_ocr_text_by_filename ocr_results d.filename)) res efs).1 =
            (fillFold (extract (_ocr_text_by_filename ocr_results d.filename)) efs (res, efs)).1 from rfl,
          hfill.1] at this
        simpa [backfill, hefs, ht] using this

/-- A field the document's extraction left missing or blank is untouched by
that document's fill pass, and stays in `empty_fields`. -/
theorem fillFold_blank (dr : List (String × String)) (f : String)
    (hblank : blankOb (aget dr f) = true) :
    ∀ (L : List String) (acc : List (String × String) × List String),
      aget (fillFold dr L acc).1 f = aget acc.1 f ∧
        (f ∈ acc.2 → f ∈ (fillFold dr L acc).2) := by
  intro L
  induction L with
  | nil => intro acc; exact ⟨rfl, fun h => h⟩
  | cons g L ih =>
    intro acc
    by_cases hgf : g = f
    · subst hgf
      cases hdr : aget dr g with
      | none => simpa [fillFold, hdr] using ih acc
      | some v =>
        have hbv : isBlank v = true := by
          rw [hdr] at hblank
          simpa [blankOb] using hblank
        simpa [fillFold, hdr, hbv] using ih acc
    · cases hdr : aget dr g with
      | none => simpa [fillFold, hdr] using ih acc
      | some v =>
        by_cases hbv : isBlank v = true
        · simpa [fillFold, hdr, hbv] using ih acc
        · have := ih (aset acc.1 g v, acc.2.erase g)
          rw [aget_aset_ne acc.1 g f v hgf] at this
          refine ⟨by simpa [fillFold, hdr, hbv] using this.1, ?_⟩
          intro hmem
          have : f ∈ acc.2.erase g → f ∈ (fillFold dr L (aset acc.1 g v, acc.2.erase g)).2 :=
            this.2
          have hmem' : f ∈ acc.2.erase g :=
            (List.mem_erase_of_ne (fun h => hgf h.symm)).mpr hmem
          simpa [fillFold, hdr, hbv] using this hmem'

/-- One fill pass keeps the live `empty_fields` list duplicate-free. -/
theorem fillFold_nodup (dr : List (String × String)) :
    ∀ (L : List String) (acc : List (String × String) × List String),
      acc.2.Nodup → (fillFold dr L acc).2.Nodup := by
  intro L
  induction L with
  | nil => intro acc h; exact h
  | cons g L ih =>
    intro acc hnd
    cases hdr : aget dr g with
    | none => simpa [fillFold, hdr] using ih acc hnd
    | some v =>
      by_cases hbv : isBlank v = true
      · simpa [fillFold, hdr, hbv] using ih acc hnd
      · simpa [fillFold, hdr, hbv] using
          ih (aset acc.1 g v, acc.2.erase g) (hnd.erase g)

/-- A still-empty field whose value in the document's extraction is truthy
and not whitespace-only is adopted and removed from `empty_fields`. -/
theorem fillFold_fills (dr : List (String × String)) (f : String) (v : String)
    (hv : aget dr f = some v) (hnb : isBlank v = false) :
    ∀ (L : List String) (acc : List (String × String) × List String),
      acc.2.Nodup → f ∈ L →
        aget (fillFold dr L acc).1 f = some v ∧ f ∉ (fillFold dr L acc).2 := by
  intro L
  induction L with
  | nil => intro acc _ hf; exact absurd hf (by simp)
  | cons g L ih =>
    intro acc hnd hf
    by_cases hgf : g = f
    · have hfg : f = g := hgf.symm
      subst hfg
      have hstep : fillFold dr (f :: L) acc =
          fillFold dr L (aset acc.1 f v, acc.2.erase f) := by
        simp [fillFold, hv, hnb]
      by_cases hfL : f ∈ L
      · rw [hstep]
        exact ih (aset acc.1 f v, acc.2.erase f) (hnd.erase f) hfL
      · have hout : f ∉ acc.2.erase f := hnd.not_mem_erase
        have := fillFold_preserve dr f L (aset acc.1 f v, acc.2.erase f) hfL hout
        rw [hstep]
        exact ⟨this.1.trans (aget_aset_eq acc.1 f v), this.2⟩
    · have hfL : f ∈ L := by
        rcases List.mem_cons.mp hf with h | h
        · exact absurd h.symm hgf
        · exact h
      cases hdr : aget dr g with
      | none => simpa [fillFold, hdr] using ih acc hnd hfL
      | some w =>
        by_cases hbw : isBlank w = true
        · simpa [fillFold, hdr, hbw] using ih acc hnd hfL
        · simpa [fillFold, hdr, hbw] using
            ih (aset acc.1 g w, acc.2.erase g) (hnd.erase g) hfL

/-- If a field that was empty at the start of the backfill loop is still
missing-or-blank at the end, then every document the loop saw either had no
text available or extracted a missing-or-blank value for that field. -/
theorem backfill_blank (extract : String → List (String × String))
    (ocr_results : List OcrDoc) (f : String) :
    ∀ (docs : List VDoc) (res : List (String × String)) (efs : List String),
      efs.Nodup → f ∈ efs →
      blankOb (aget (backfill extract ocr_results docs res efs) f) = true →
      ∀ d ∈ docs, _ocr_text_by_filename ocr_results d.filename = "" ∨
        blankOb (aget (extract (_ocr_text_by_filename ocr_results d.filename)) f) = true := by
  intro docs
  induction docs with
  | nil => intro res efs _ _ _ d hd; exact absurd hd (by simp)
  | cons d ds ih =>
    intro res efs hnd hf hfinal e he
    have hefs : ¬ (efs = []) := fun h => by simp [h] at hf
    by_cases ht : _ocr_text_by_filename ocr_results d.filename = ""
    · rcases List.mem_cons.mp he with rfl | he'
      · exact Or.inl ht
      · rw [show backfill extract ocr_results (d :: ds) res efs =
            backfill extract ocr_results ds res efs by simp [backfill, hefs, ht]] at hfinal
        exact ih res efs hnd hf hfinal e he'
    · by_cases hbl : blankOb (aget (extract (_ocr_text_by_filename ocr_results d.filename)) f) = true
      · have hstep : backfill extract ocr_results (d :: ds) res efs =
            backfill extract ocr_results ds
              (fillFromDoc (extract (_ocr_text_by_filename ocr_results d.filename)) res efs).1
              (fillFromDoc (extract (_ocr_text_by_filename ocr_results d.filename)) res efs).2 := by
          simp [backfill, hefs, ht]
        rcases List.mem_cons.mp he with rfl | he'
        · exact Or.inr hbl
        · rw [hstep] at hfinal
          have hmem : f ∈ (fillFromDoc
              (extract (_ocr_text_by_filename ocr_results d.filename)) res efs).2 :=
            (fillFold_blank (extract (_ocr_text_by_filename ocr_results d.filename))
              f hbl efs (res, efs)).2 hf
          have hnd' : (fillFromDoc
              (extract (_ocr_text_by_filename ocr_results d.filename)) res efs).2.Nodup :=
            fillFold_nodup (extract (_ocr_text_by_filename ocr_results d.filename))
              efs (res, efs) hnd
          exact ih _ _ hnd' hmem hfinal e he'
      · exfalso
        cases hdr : aget (extract (_ocr_text_by_filename ocr_results d.filename)) f with
        | none => simp [blankOb, hdr] at hbl
        | some v =>
          have hnb : isBlank v = false := by
            rw [hdr] at hbl
            simpa [blankOb] using hbl
          have hfill := fillFold_fills
            (extract (_ocr_text_by_filename ocr_results d.filename)) f v hdr hnb
            efs (res, efs) hnd hf
          have hfill1 : aget (fillFromDoc
              (extract (_ocr_text_by_filename ocr_results d.filename)) res efs).1 f =
              some v := hfill.1
          have hfill2 : f ∉ (fillFromDoc
              (extract (_ocr_text_by_filename ocr_results d.filename)) res efs).2 := hfill.2
          have hpres := backfill_preserve extract ocr_results f ds
            (fillFromDoc (extract (_ocr_text_by_filename ocr_results d.filename)) res efs).1
            (fillFromDoc (extract (_ocr_text_by_filename ocr_results d.filename)) res efs).2
            hfill2
          rw [show backfill extract ocr_results (d :: ds) res efs =
              backfill extract ocr_results ds
                (fillFromDoc (extract (_ocr_text_by_filename ocr_results d.filename)) res efs).1
                (fillFromDoc (extract (_ocr_text_by_filename ocr_results d.filename)) res efs).2
              by simp [backfill, hefs, ht], hpres, hfill1] at hfinal
          rw [show blankOb (some v) = isBlank v from rfl, hnb] at hfinal
          exact absurd hfinal (by simp)

theorem aget_of_mem_keys (m : List (String × String)) (f : String)
    (h : f ∈ m.map Prod.fst) : ∃ v, aget m f = some v ∧ (f, v) ∈ m := by
  induction m with
  | nil => simp at h
  | cons p rest ih =>
    obtain ⟨k, v⟩ := p
    by_cases hk : k = f
    · subst hk
      exact ⟨v, by simp [aget_cons], by simp⟩
    · have h' : f ∈ rest.map Prod.fst := by
        rcases List.mem_cons.mp h with h | h
        · exact absurd h.symm hk
        · exact h
      obtain ⟨v', hv', hm⟩ := ih h'
      exact ⟨v', by simp [aget_cons, hk, hv'], List.mem_cons_of_mem _ hm⟩

theorem mem_empty_fields_of_blank (m : List (String × String)) (f v : String)
    (hm : (f, v) ∈ m) (hb : isBlank v = true) : f ∈ _get_empty_fields m := by
  unfold _get_empty_fields
  exact List.mem_map_of_mem _ (List.mem_filter.mpr ⟨hm, by simpa using hb⟩)

theorem blank_of_mem_empty_fields (m : List (String × String)) (f : String)
    (hnd : (m.map Prod.fst).Nodup) (h : f ∈ _get_empty_fields m) :
    blankOb (aget m f) = true := by
  unfold _get_empty_fields at h
  obtain ⟨⟨k, v⟩, hkv, hk⟩ := List.mem_map.mp h
  obtain ⟨hmem, hbl⟩ := List.mem_filter.mp hkv
  have hkf : k = f := hk
  subst hkf
  obtain ⟨v', hv', hm'⟩ := aget_of_mem_keys m k (List.mem_map_of_mem Prod.fst hmem)
  have : v' = v := by
    have := List.inj_on_of_nodup_map hnd hm' hmem rfl
    exact (Prod.mk.injEq _ _ _ _).mp this |>.2
  rw [hv', this]
  simpa [blankOb] using hbl

theorem empty_fields_nodup (m : List (String × String))
    (hnd : (m.map Prod.fst).Nodup) : (_get_empty_fields m).Nodup := by
  unfold _get_empty_fields
  exact ((List.filter_sublist m).map Prod.fst).nodup hnd

-- ---------------------------------------------------------------------------
-- Claims C2, C7, C8
-- ---------------------------------------------------------------------------

/-- C2: during reconciliation, (1) a field that is out of `empty_fields`
(because the newest document resolved it, or because an earlier backfill
step adopted a value and removed it) is never touched by the remaining
backfill iterations, and (2) if a field of the newest document's extraction
result ends up missing-or-blank, then the newest extraction left it blank
and every older document in the chain either had no text or extracted a
missing-or-blank value for it.  (The hypothesis that the extraction result
has duplicate-free keys is automatic for a Python dict.) -/
theorem C2_theorem (extract : String → List (String × String))
    (versioning_results : List (String × List VDoc)) (ocr_results : List OcrDoc)
    (f : String) :
    (∀ (docs : List VDoc) (res : List (String × String)) (efs : List String),
        f ∉ efs → aget (backfill extract ocr_results docs res efs) f = aget res f) ∧
    (∀ latest rest, escrituraSorted versioning_results = latest :: rest →
        _ocr_text_by_filename ocr_results latest.filename ≠ "" →
        (((extract (_ocr_text_by_filename ocr_results latest.filename)).map
            Prod.fst).Nodup) →
        f ∈ (extract (_ocr_text_by_filename ocr_results latest.filename)).map Prod.fst →
        blankOb (aget (_extract_section_with_date_priority extract
            versioning_results ocr_results) f) = true →
        blankOb (aget (extract (_ocr_text_by_filename ocr_results latest.filename))
            f) = true ∧
          ∀ d ∈ rest, _ocr_text_by_filename ocr_results d.filename = "" ∨
            blankOb (aget (extract (_ocr_text_by_filename ocr_results d.filename))
              f) = true) := by
  constructor
  · exact backfill_preserve extract ocr_results f
  · intro latest rest hsorted htext hnd hkeys hfinal
    have hdocs : ¬ (escrituraDocs versioning_results = []) := by
      intro h
      rw [show escrituraSorted versioning_results =
          ssort fechaDescLe (escrituraDocs versioning_results) from rfl, h] at hsorted
      simp [ssort] at hsorted
    have heq : _extract_section_with_date_priority extract versioning_results ocr_results =
        backfill extract ocr_results rest
          (extract (_ocr_text_by_filename ocr_results latest.filename))
          (_get_empty_fields
            (extract (_ocr_text_by_filename ocr_results latest.filename))) := by
      unfold _extract_section_with_date_priority
      rw [if_neg hdocs, hsorted]
      exact if_neg htext
    rw [heq] at hfinal
    by_cases hbres : blankOb (aget (extract
        (_ocr_text_by_filename ocr_results latest.filename)) f) = true
    · refine ⟨hbres, ?_⟩
      obtain ⟨v, hv, hm⟩ := aget_of_mem_keys _ f hkeys
      have hbv : isBlank v = true := by
        rw [hv] at hbres
        simpa [blankOb] using hbres
      have hfefs : f ∈ _get_empty_fields
          (extract (_ocr_text_by_filename ocr_results latest.filename)) :=
        mem_empty_fields_of_blank _ f v hm hbv
      exact backfill_blank extract ocr_results f rest _ _
        (empty_fields_nodup _ hnd) hfefs hfinal
    · exfalso
      have hnotefs : f ∉ _get_empty_fields
          (extract (_ocr_text_by_filename ocr_results latest.filename)) :=
        fun h => hbres (blank_of_mem_empty_fields _ f hnd h)
      rw [backfill_preserve extract ocr_results f rest _ _ hnotefs] at hfinal
      exact hbres hfinal

theorem C2_witness :
    aget (backfill
        (fun t => if t = "T1" then [("a", "x"), ("b", "")] else [("b", " ")])
        [⟨"f0.pdf", "T0"⟩, ⟨"f1.pdf", "T1"⟩]
        [⟨"f0.pdf", "01-01-2020", 1⟩]
        [("a", "x"), ("b", "")] ["b"]) "a" =
      aget ([("a", "x"), ("b", "")] : List (String × String)) "a" ∧
    (blankOb (aget ((fun t => if t = "T1" then [("a", "x"), ("b", "")] else [("b", " ")])
        "T1") "b") = true ∧
      ∀ d ∈ [(⟨"f0.pdf", "01-01-2020", 1⟩ : VDoc)],
        _ocr_text_by_filename [⟨"f0.pdf", "T0"⟩, ⟨"f1.pdf", "T1"⟩] d.filename = "" ∨
          blankOb (aget ((fun t => if t = "T1" then [("a", "x"), ("b", "")]
              else [("b", " ")])
            (_ocr_text_by_filename [⟨"f0.pdf", "T0"⟩, ⟨"f1.pdf", "T1"⟩] d.filename))
            "b") = true) :=
  ⟨(C2_theorem (fun t => if t = "T1" then [("a", "x"), ("b", "")] else [("b", " ")])
      [("escritura", [⟨"f0.pdf", "01-01-2020", 1⟩, ⟨"f1.pdf", "02-01-2020", 2⟩])]
      [⟨"f0.pdf", "T0"⟩, ⟨"f1.pdf", "T1"⟩] "a").1
      [⟨"f0.pdf", "01-01-2020", 1⟩] [("a", "x"), ("b", "")] ["b"] (by decide),
    (C2_theorem (fun t => if t = "T1" then [("a", "x"), ("b", "")] else [("b", " ")])
      [("escritura", [⟨"f0.pdf", "01-01-2020", 1⟩, ⟨"f1.pdf", "02-01-2020", 2⟩])]
      [⟨"f0.pdf", "T0"⟩, ⟨"f1.pdf", "T1"⟩] "b").2
      ⟨"f1.pdf", "02-01-2020", 2⟩ [⟨"f0.pdf", "01-01-2020", 1⟩]
      (by decide) (by decide) (by decide) (by decide) (by decide)⟩

/-- C7, counterexample: when the NEWEST document's text is missing from the
lookup, `_extract_section_with_date_priority` returns `{}` immediately — the
older document (whose text is available and whose extraction would yield a
non-empty field) is never consulted, instead of being "skipped and the
remaining documents processed". -/
theorem C7_counterexample :
    _extract_section_with_date_priority (fun _ => [("campo", "valor")])
        [("escritura", [⟨"nuevo.pdf", "02-01-2020", 2⟩, ⟨"viejo.pdf", "01-01-2020", 1⟩])]
        [⟨"viejo.pdf", "texto del viejo"⟩] = [] ∧
    _ocr_text_by_filename [⟨"viejo.pdf", "texto del viejo"⟩] "viejo.pdf" ≠ "" ∧
    _ocr_text_by_filename [⟨"viejo.pdf", "texto del viejo"⟩] "nuevo.pdf" = "" := by
  decide

/-- C7 (amended): a document OTHER than the newest whose text is unavailable
is skipped by the backfill loop, which continues with the remaining
documents; but when the NEWEST document's text is unavailable, both
reconciliation functions return their empty/default record at once, without
consulting any older document. -/
theorem C7_amended :
    (∀ (extract : String → List (String × String)) (ocr_results : List OcrDoc)
        (d : VDoc) (ds : List VDoc) (res : List (String × String)) (efs : List String),
        _ocr_text_by_filename ocr_results d.filename = "" →
          backfill extract ocr_results (d :: ds) res efs =
            backfill extract ocr_results ds res efs) ∧
    (∀ (extract : String → List (String × String))
        (versioning_results : List (String × List VDoc)) (ocr_results : List OcrDoc)
        (latest : VDoc) (rest : List VDoc),
        escrituraSorted versioning_results = latest :: rest →
        _ocr_text_by_filename ocr_results latest.filename = "" →
          _extract_section_with_date_priority extract versioning_results ocr_results =
              [] ∧
            _extract_encabezado_with_date_priority extract versioning_results
              ocr_results = encEmptyRecord) := by
  constructor
  · intro extract ocr_results d ds res efs ht
    by_cases hefs : efs = []
    · cases ds <;> simp [backfill, hefs]
    · simp [backfill, hefs, ht]
  · intro extract versioning_results ocr_results latest rest hsorted htext
    have hdocs : ¬ (escrituraDocs versioning_results = []) := by
      intro h
      rw [show escrituraSorted versioning_results =
          ssort fechaDescLe (escrituraDocs versioning_results) from rfl, h] at hsorted
      simp [ssort] at hsorted
    constructor
    · unfold _extract_section_with_date_priority
      rw [if_neg hdocs, hsorted]
      exact if_pos htext
    · unfold _extract_encabezado_with_date_priority
      rw [if_neg hdocs, hsorted]
      exact if_pos htext

theorem C7_witness :
    backfill (fun _ => [("campo", "valor")]) [⟨"b.pdf", "tb"⟩]
        [⟨"a.pdf", "01-01-2020", 1⟩, ⟨"b.pdf", "02-01-2020", 2⟩]
        [("campo", "")] ["campo"] =
      backfill (fun _ => [("campo", "valor")]) [⟨"b.pdf", "tb"⟩]
        [⟨"b.pdf", "02-01-2020", 2⟩] [("campo", "")] ["campo"] ∧
    (_extract_section_with_date_priority (fun _ => [("campo", "valor")])
        [("escritura", [⟨"nuevo.pdf", "02-01-2020", 2⟩, ⟨"viejo.pdf", "01-01-2020", 1⟩])]
        [⟨"viejo.pdf", "texto del viejo"⟩] = [] ∧
      _extract_encabezado_with_date_priority (fun _ => [("campo", "valor")])
        [("escritura", [⟨"nuevo.pdf", "02-01-2020", 2⟩, ⟨"viejo.pdf", "01-01-2020", 1⟩])]
        [⟨"viejo.pdf", "texto del viejo"⟩] = encEmptyRecord) :=
  ⟨C7_amended.1 (fun _ => [("campo", "valor")]) [⟨"b.pdf", "tb"⟩]
      ⟨"a.pdf", "01-01-2020", 1⟩ [⟨"b.pdf", "02-01-2020", 2⟩]
      [("campo", "")] ["campo"] (by decide),
    C7_amended.2 (fun _ => [("campo", "valor")])
      [("escritura", [⟨"nuevo.pdf", "02-01-2020", 2⟩, ⟨"viejo.pdf", "01-01-2020", 1⟩])]
      [⟨"viejo.pdf", "texto del viejo"⟩] ⟨"nuevo.pdf", "02-01-2020", 2⟩
      [⟨"viejo.pdf", "01-01-2020", 1⟩] (by decide) (by decide)⟩

/-- C8, counterexample: with the extraction collaborator returning a
malformed response (`{}`) for every document, the encabezado reconciliation
of a one-document chain (text available) returns a record that does NOT
contain the requested field `razon_social` — the code's own default record
`encEmptyRecord` shows that field is requested — and the section
reconciliation returns `{}` rather than a record of empty requested fields. -/
theorem C8_counterexample :
    aget (_extract_encabezado_with_date_priority (fun _ => [])
        [("escritura", [⟨"doc.pdf", "01-01-2020", 1⟩])]
        [⟨"doc.pdf", "TEXTO"⟩]) "razon_social" = none ∧
    aget encEmptyRecord "razon_social" = some "" ∧
    _extract_section_with_date_priority (fun _ => [])
        [("escritura", [⟨"doc.pdf", "01-01-2020", 1⟩])]
        [⟨"doc.pdf", "TEXTO"⟩] = [] := by
  decide

/-- C8 (amended): when extraction returns a malformed response (`{}`) for
every consulted document, reconciliation still returns without error, but
the result is a record with NO fields (`{}` for sections, inner `{}` for the
encabezado); the record with every requested field present-but-empty is
produced only by the no-documents and newest-text-missing branches. -/
theorem C8_amended (versioning_results : List (String × List VDoc))
    (ocr_results : List OcrDoc) :
    (_extract_encabezado_with_date_priority (fun _ => []) versioning_results
          ocr_results = encEmptyRecord ∨
      _extract_encabezado_with_date_priority (fun _ => []) versioning_results
          ocr_results = []) ∧
    (_extract_section_with_date_priority (fun _ => []) versioning_results
          ocr_results = []) := by
  have hback : ∀ (rest : List VDoc),
      backfill (fun _ => ([] : List (String × String))) ocr_results rest [] [] = [] := by
    intro rest
    cases rest <;> rfl
  constructor
  · unfold _extract_encabezado_with_date_priority
    by_cases hdocs : escrituraDocs versioning_results = []
    · left
      rw [if_pos hdocs]
    · rw [if_neg hdocs]
      cases hsorted : escrituraSorted versioning_results with
      | nil => left; rfl
      | cons latest rest =>
        by_cases htext : _ocr_text_by_filename ocr_results latest.filename = ""
        · left
          exact if_pos htext
        · right
          exact (if_neg htext).trans (hback rest)
  · unfold _extract_section_with_date_priority
    by_cases hdocs : escrituraDocs versioning_results = []
    · rw [if_pos hdocs]
    · rw [if_neg hdocs]
      cases hsorted : escrituraSorted versioning_results with
      | nil => rfl
      | cons latest rest =>
        by_cases htext : _ocr_text_by_filename ocr_results latest.filename = ""
        · exact if_pos htext
        · exact (if_neg htext).trans (hback rest)

-- ---------------------------------------------------------------------------
-- Version comparer (src/agents/version_comparer_agent.py)
-- ---------------------------------------------------------------------------

/-- One `{titulo, antes, despues}` change entry of the diff reply. -/
structure Cambio where
  titulo : String
  antes : String
  despues : String
deriving DecidableEq, Repr

/-- A parsed diff reply `{"cambios": …, "resumen": …}` (the parse only
succeeds when the `cambios` key is present; `resumen` defaults to `""`). -/
structure Diffs where
  cambios : List Cambio
  resumen : String
deriving DecidableEq, Repr

/-- Python string slicing `s[:n]` (by code point). -/
def strTake (s : String) (n : Nat) : String := ⟨s.data.take n⟩

/-- `VersionComparerAgent._find_text`:
`(ocr_index.get(filename) or "")[:max_chars_doc]` with the default 16000;
the `ocr_index` comprehension is the same index as `_ocr_text_by_filename`. -/
def _find_text (ocr_results : List OcrDoc) (filename : String) : String :=
  strTake (_ocr_text_by_filename ocr_results filename) 16000

/-- `VersionComparerAgent._compare_texts`.  The `llmDiff` argument embeds
`llm.invoke` + `json.loads` + the `isinstance(dict) and "cambios" in data`
check; `none` covers an exception or a malformed reply, in which case the
fallback `{"cambios": [], "resumen": ""}` is returned — as it also is, with
no LLM call at all, when either text is empty. -/
def _compare_texts (llmDiff : String → String → Option Diffs)
    (texto_anterior texto_nueva : String) : Diffs :=
  if texto_anterior = "" ∨ texto_nueva = "" then ⟨[], ""⟩
  else
    match llmDiff (strTake texto_anterior 8000) (strTake texto_nueva 8000) with
    | some d => d
    | none => ⟨[], ""⟩

/-- One emitted comparison `{de, a, diferencias}`. -/
structure Comp where
  de : VDoc
  a : VDoc
  diferencias : Diffs
deriving DecidableEq, Repr

/-- The consecutive pairs `(l[i], l[i+1])` of a list, in order — the
`for i in range(len(l) - 1)` iteration pattern. -/
def adjPairs : List α → List (α × α)
  | a :: b :: rest => (a, b) :: adjPairs (b :: rest)
  | _ => []

/-- `sorted(docs, key=lambda x: x.get("version", 0))`. -/
def versionLe (x y : VDoc) : Bool := x.version ≤ y.version

/-- The per-category body of `comparar_versiones`: chains shorter than 2
yield `[]`; otherwise sort by version and emit one comparison per
consecutive pair, in order. -/
def compsFor (llmDiff : String → String → Option Diffs)
    (ocr_results : List OcrDoc) (docs : List VDoc) : List Comp :=
  if docs.length < 2 then []
  else
    (adjPairs (ssort versionLe docs)).map (fun p =>
      { de := p.1, a := p.2
        diferencias := _compare_texts llmDiff
          (_find_text ocr_results p.1.filename)
          (_find_text ocr_results p.2.filename) })

/-- `VersionComparerAgent.comparar_versiones`: one comparison list per
category, in the input dict's category order. -/
def comparar_versiones (llmDiff : String → String → Option Diffs)
    (versioning_results : List (String × List VDoc))
    (ocr_results : List OcrDoc) : List (String × List Comp) :=
  versioning_results.map (fun g => (g.1, compsFor llmDiff ocr_results g.2))

/-- One flattened entry of `paso_4_escritura_comparison`'s result list. -/
structure P4Entry where
  categoria : String
  de : VDoc
  a : VDoc
  cambios : List Cambio
  resumen : String
deriving DecidableEq, Repr

/-- One iteration of the `paso_4_escritura_comparison` comparison loop:
skip the pair when either endpoint's (untruncated) text is missing,
otherwise run `comparar_versiones` on the two-document temp structure and
flatten its first comparison; `none` means `continue` (no entry). -/
def p4Pair (llmDiff : String → String → Option Diffs) (ocr_results : List OcrDoc)
    (version_actual version_siguiente : VDoc) : Option P4Entry :=
  if _ocr_text_by_filename ocr_results version_actual.filename = "" ∨
      _ocr_text_by_filename ocr_results version_siguiente.filename = "" then none
  else
    match aget (comparar_versiones llmDiff
        [("escritura", [version_actual, version_siguiente])] ocr_results) "escritura" with
    | some (c :: _) =>
        some ⟨"escritura", version_actual, version_siguiente,
          c.diferencias.cambios, c.diferencias.resumen⟩
    | _ => none

/-- The full comparison loop of `paso_4_escritura_comparison` over the
version-sorted escritura documents. -/
def p4Loop (llmDiff : String → String → Option Diffs) (ocr_results : List OcrDoc)
    (escrituras_ordenadas : List VDoc) : List P4Entry :=
  (adjPairs escrituras_ordenadas).filterMap
    (fun p => p4Pair llmDiff ocr_results p.1 p.2)

theorem versionLe_total (x y : VDoc) : versionLe x y = true ∨ versionLe y x = true := by
  unfold versionLe
  rcases Nat.le_total x.version y.version with h | h
  · left; simpa using h
  · right; simpa using h

theorem versionLe_trans (x y z : VDoc) :
    versionLe x y = true → versionLe y z = true → versionLe x z = true := by
  unfold versionLe
  simp only [decide_eq_true_eq]
  exact Nat.le_trans

theorem pairwise_lt_range' : ∀ (n s : Nat), (List.range' s n).Pairwise (· < ·) := by
  intro n
  induction n with
  | zero => intro s; simp
  | succ m ih =>
    intro s
    rw [List.range'_succ]
    refine List.Pairwise.cons ?_ (ih (s + 1))
    intro x hx
    have := (List.mem_range'_1.mp hx).1
    omega

theorem adjPairs_map (f : α → β) :
    ∀ l : List α, adjPairs (l.map f) = (adjPairs l).map (fun p => (f p.1, f p.2)) := by
  intro l
  induction l with
  | nil => rfl
  | cons a rest ih =>
    cases rest with
    | nil => rfl
    | cons b rest' =>
      calc adjPairs ((a :: b :: rest').map f)
          = (f a, f b) :: adjPairs ((b :: rest').map f) := rfl
        _ = (f a, f b) :: (adjPairs (b :: rest')).map (fun p => (f p.1, f p.2)) := by
            rw [ih]
        _ = ((a, b) :: adjPairs (b :: rest')).map (fun p => (f p.1, f p.2)) := rfl
        _ = (adjPairs (a :: b :: rest')).map (fun p => (f p.1, f p.2)) := rfl

theorem adjPairs_range' : ∀ (n s : Nat),
    adjPairs (List.range' s (n + 1)) = (List.range' s n).map (fun i => (i, i + 1)) := by
  intro n
  induction n with
  | zero => intro s; rfl
  | succ m ih =>
    intro s
    have e1 : adjPairs (List.range' s (m + 1 + 1)) =
        (s, s + 1) :: adjPairs (List.range' (s + 1) (m + 1)) := by
      rw [show List.range' s (m + 1 + 1) = s :: List.range' (s + 1) (m + 1) from by
            rw [List.range'_succ],
          show List.range' (s + 1) (m + 1) = (s + 1) :: List.range' (s + 2) m from by
            rw [List.range'_succ]]
      rfl
    rw [e1, ih (s + 1),
      show List.range' s (m + 1) = s :: List.range' (s + 1) m from by
        rw [List.range'_succ]]
    rfl

-- ---------------------------------------------------------------------------
-- Claims C5, C6
-- ---------------------------------------------------------------------------

/-- C5: for a version chain whose versions are (a permutation of) `1..N`
— what the assigner produces — `comparar_versiones` emits for that category
exactly `N−1` comparisons, in ascending version order, the `i`-th linking
version `i` to version `i+1` (so only adjacent pairs ever appear), and a
chain with fewer than 2 entries yields an empty list, not an error. -/
theorem C5_theorem (llmDiff : String → String → Option Diffs)
    (ocr_results : List OcrDoc) (versioning_results : List (String × List VDoc))
    (cat : String) (docs : List VDoc) (N : Nat)
    (hmem : (cat, docs) ∈ versioning_results)
    (hN : List.Perm (docs.map (·.version)) (List.range' 1 N)) :
    ((cat, compsFor llmDiff ocr_results docs) ∈
        comparar_versiones llmDiff versioning_results ocr_results) ∧
    (2 ≤ N →
      (compsFor llmDiff ocr_results docs).map (fun c => (c.de.version, c.a.version)) =
        (List.range' 1 (N - 1)).map (fun i => (i, i + 1))) ∧
    (docs.length < 2 → compsFor llmDiff ocr_results docs = []) := by
  refine ⟨?_, ?_, ?_⟩
  · exact List.mem_map_of_mem (fun g => (g.1, compsFor llmDiff ocr_results g.2)) hmem
  · intro h2
    have hlen : docs.length = N := by
      have := hN.length_eq
      simpa using this
    have hnotlt : ¬ (docs.length < 2) := by omega
    have hsortedV : (ssort versionLe docs).map (·.version) = List.range' 1 N := by
      refine eq_of_perm_of_pairwise
        (((ssort_perm versionLe docs).map (·.version)).trans hN)
        ?_ ((pairwise_lt_range' N 1).imp Nat.le_of_lt) ?_
      · have hpw := pairwise_ssort versionLe_total versionLe_trans docs
        exact List.pairwise_map.mpr (hpw.imp (fun h => by simpa [versionLe] using h))
      · intro a _ b _ hab hba
        omega
    unfold compsFor
    rw [if_neg hnotlt, List.map_map]
    have hcomp :
        ((fun c => (c.de.version, c.a.version)) ∘ (fun p : VDoc × VDoc =>
          ({ de := p.1, a := p.2
             diferencias := _compare_texts llmDiff
               (_find_text ocr_results p.1.filename)
               (_find_text ocr_results p.2.filename) } : Comp))) =
          (fun p : VDoc × VDoc => (p.1.version, p.2.version)) := rfl
    rw [hcomp,
      show (adjPairs (ssort versionLe docs)).map
          (fun p : VDoc × VDoc => (p.1.version, p.2.version)) =
        adjPairs ((ssort versionLe docs).map (·.version)) from
          (adjPairs_map (·.version) (ssort versionLe docs)).symm,
      hsortedV,
      show N = (N - 1) + 1 from by omega,
      adjPairs_range' (N - 1) 1,
      show N - 1 + 1 - 1 = N - 1 from by omega]
  · intro hlt
    unfold compsFor
    rw [if_pos hlt]

theorem C5_witness :
    (("escritura",
        compsFor (fun _ _ => none) [⟨"a.pdf", "ta"⟩]
          [⟨"a.pdf", "01-01-2020", 1⟩, ⟨"b.pdf", "02-01-2020", 2⟩]) ∈
      comparar_versiones (fun _ _ => none)
        [("escritura", [⟨"a.pdf", "01-01-2020", 1⟩, ⟨"b.pdf", "02-01-2020", 2⟩]),
         ("otros", [⟨"c.pdf", "", 1⟩])]
        [⟨"a.pdf", "ta"⟩]) ∧
    ((compsFor (fun _ _ => none) [⟨"a.pdf", "ta"⟩]
        [⟨"a.pdf", "01-01-2020", 1⟩, ⟨"b.pdf", "02-01-2020", 2⟩]).map
        (fun c => (c.de.version, c.a.version)) =
      (List.range' 1 1).map (fun i => (i, i + 1))) ∧
    compsFor (fun _ _ => none) [⟨"a.pdf", "ta"⟩] [⟨"c.pdf", "", 1⟩] = [] :=
  have h := C5_theorem (fun _ _ => none) [⟨"a.pdf", "ta"⟩]
    [("escritura", [⟨"a.pdf", "01-01-2020", 1⟩, ⟨"b.pdf", "02-01-2020", 2⟩]),
     ("otros", [⟨"c.pdf", "", 1⟩])]
    "escritura" [⟨"a.pdf", "01-01-2020", 1⟩, ⟨"b.pdf", "02-01-2020", 2⟩] 2
    (by decide) (by decide)
  have h1 := C5_theorem (fun _ _ => none) [⟨"a.pdf", "ta"⟩]
    [("escritura", [⟨"a.pdf", "01-01-2020", 1⟩, ⟨"b.pdf", "02-01-2020", 2⟩]),
     ("otros", [⟨"c.pdf", "", 1⟩])]
    "otros" [⟨"c.pdf", "", 1⟩] 1 (by decide) (by decide)
  ⟨h.1, h.2.1 (by decide), h1.2.2 (by decide)⟩

/-- C6, counterexample: in `comparar_versiones` a pair with a missing
endpoint text is NOT skipped — the comparison is still emitted, with the
fallback empty change list and summary (the diff collaborator, though
available and producing changes, is never invoked for it).  The category's
list has one entry, not zero. -/
theorem C6_counterexample :
    comparar_versiones (fun _ _ => some ⟨[⟨"titulo", "antes", "despues"⟩], "resumen"⟩)
        [("escritura", [⟨"a.pdf", "01-01-2020", 1⟩, ⟨"b.pdf", "02-01-2020", 2⟩])]
        [⟨"a.pdf", "texto a"⟩] =
      [("escritura",
        [⟨⟨"a.pdf", "01-01-2020", 1⟩, ⟨"b.pdf", "02-01-2020", 2⟩, ⟨[], ""⟩⟩])] ∧
    _ocr_text_by_filename [⟨"a.pdf", "texto a"⟩] "b.pdf" = "" := by
  decide

/-- C6 (amended): when either endpoint's text is unavailable,
`comparar_versiones` still emits the comparison but with an empty change
list and empty summary (the diff collaborator is not consulted), and
processing continues with the remaining pairs; the escritura comparison
stage (`paso_4_escritura_comparison`), by contrast, skips such a pair
entirely — its loop produces exactly the entries of the remaining pairs —
so in both cases one missing document never aborts the category's
comparison set. -/
theorem C6_amended :
    (∀ (llmDiff : String → String → Option Diffs) (ta tn : String),
        ta = "" ∨ tn = "" → _compare_texts llmDiff ta tn = ⟨[], ""⟩) ∧
    (∀ (llmDiff : String → String → Option Diffs) (ocr_results : List OcrDoc)
        (a b : VDoc) (rest : List VDoc),
        _ocr_text_by_filename ocr_results a.filename = "" ∨
          _ocr_text_by_filename ocr_results b.filename = "" →
        p4Loop llmDiff ocr_results (a :: b :: rest) =
          p4Loop llmDiff ocr_results (b :: rest)) := by
  constructor
  · intro llmDiff ta tn h
    unfold _compare_texts
    rw [if_pos h]
  · intro llmDiff ocr_results a b rest h
    unfold p4Loop
    show ((a, b) :: adjPairs (b :: rest)).filterMap
        (fun p => p4Pair llmDiff ocr_results p.1 p.2) = _
    rw [List.filterMap_cons]
    have : p4Pair llmDiff ocr_results a b = none := by
      unfold p4Pair
      rw [if_pos h]
    rw [this]

theorem C6_witness :
    _compare_texts (fun _ _ => some ⟨[⟨"titulo", "antes", "despues"⟩], "resumen"⟩)
        "" "texto" = ⟨[], ""⟩ ∧
    p4Loop (fun _ _ => none) [⟨"a.pdf", "ta"⟩]
        [⟨"b.pdf", "01-01-2020", 1⟩, ⟨"a.pdf", "02-01-2020", 2⟩,
         ⟨"c.pdf", "03-01-2020", 3⟩] =
      p4Loop (fun _ _ => none) [⟨"a.pdf", "ta"⟩]
        [⟨"a.pdf", "02-01-2020", 2⟩, ⟨"c.pdf", "03-01-2020", 3⟩] :=
  ⟨C6_amended.1 (fun _ _ => some ⟨[⟨"titulo", "antes", "despues"⟩], "resumen"⟩)
      "" "texto" (by decide),
    C6_amended.2 (fun _ _ => none) [⟨"a.pdf", "ta"⟩]
      ⟨"b.pdf", "01-01-2020", 1⟩ ⟨"a.pdf", "02-01-2020", 2⟩
      [⟨"c.pdf", "03-01-2020", 3⟩] (by decide)⟩

-- ---------------------------------------------------------------------------
-- Processing graph (src/core/graph/state_graph.py)
-- ---------------------------------------------------------------------------

/-- The summary dict `paso_3_vectorization` stores (vectorisation itself is
always skipped; only the `modo` label depends on the configuration flag). -/
structure VecResults where
  collection : String
  documentos_procesados : Nat
  total_chunks : Nat
  modo : String
  mensaje : String
deriving DecidableEq, Repr

/-- The value of the `comparison_results` slot: the initial `{}`, the
flattened per-pair list `paso_4_escritura_comparison` stores (wrapped as
`{"escritura": […]}`), or the per-category dict `paso_7_version_comparison`
stores.  (In Python all three are plain dicts; the tag only records which
shape is present.) -/
inductive CompRes where
  | emptyDict
  | stage4 (m : List (String × List P4Entry))
  | stage7 (m : List (String × List Comp))
deriving DecidableEq, Repr

/-- `ProcessingState` (the TypedDict; `legalization_results` appears in
`create_initial_state` though not in the TypedDict declaration). -/
structure PState where
  carpeta : String
  folder_path : String
  ocr_results : List OcrDoc
  entity_results : List (String × String)
  classification_results : List ClassItem
  vectorization_results : Option VecResults
  versioning_results : List (String × List VDoc)
  comparison_results : CompRes
  legalization_results : List (String × String)
  report_results : List (String × String)
  error : String
deriving DecidableEq, Repr

/-- `create_initial_state` (`os.path.join("data", carpeta)` on a posix
separator). -/
def create_initial_state (carpeta : String) : PState :=
  { carpeta := carpeta
    folder_path := "data/" ++ carpeta
    ocr_results := []
    entity_results := []
    classification_results := []
    vectorization_results := none
    versioning_results := []
    comparison_results := .emptyDict
    legalization_results := []
    report_results := []
    error := "" }

/-- `paso_1_ocr`.  `ocrOutcome` embeds the whole `try` block
(`OCRAgent().analyze_folder` plus the JSON persistence); `.error e` is any
exception caught by the `except`. -/
def paso_1_ocr (ocrOutcome : Except String (List OcrDoc)) (state : PState) : PState :=
  match ocrOutcome with
  | .ok results => { state with ocr_results := results }
  | .error e => { state with error := "Error en PASO 1: " ++ e }

/-- `paso_2_versioning`.  `verOutcome` embeds the LLM-driven per-document
loop of `assign_versions_from_ocr` (its `documentos_procesados` output);
`.error e` is an exception escaping the `try` block (e.g. the LLM client
constructor or the persistence).  The deterministic
grouping/ordering/numbering tail is `assign_versions_from_ocr` itself. -/
def paso_2_versioning (verOutcome : Except String (List ProcDoc)) (state : PState) :
    PState :=
  if state.ocr_results = [] then
    { state with error := "No hay resultados de OCR para versionar documentos" }
  else
    match verOutcome with
    | .ok documentos_procesados =>
        { state with
            versioning_results := assign_versions_from_ocr documentos_procesados }
    | .error e => { state with error := "Error en PASO 2: " ++ e }

/-- The summary dict built by `paso_3_vectorization` in both configuration
modes. -/
def vecResults (extract_from_ocr : Bool) (carpeta : String) : VecResults :=
  { collection := "legal_" ++ carpeta
    documentos_procesados := 0
    total_chunks := 0
    modo := if extract_from_ocr then "OCR_DIRECTO" else "SIN_VECTORIZACION"
    mensaje := "Vectorización omitida - usando extracción directa desde OCR" }

/-- `paso_3_vectorization` (vectorisation is skipped in both modes; the
stage has no `try`, so a persistence failure would crash the run and is not
modelled). -/
def paso_3_vectorization (extract_from_ocr : Bool) (state : PState) : PState :=
  if state.ocr_results = [] ∨ state.versioning_results = [] then
    { state with error := "Faltan resultados (OCR o versionado) para vectorizar" }
  else
    { state with
        vectorization_results := some (vecResults extract_from_ocr state.carpeta) }

/-- `paso_4_escritura_comparison`.  `persist` embeds the persistence tail of
the outer `try` (the per-pair agent work is deterministic given `llmDiff`;
an exception inside the inner per-pair `try` is treated as `continue` and,
like the construction of the agent, is absorbed into `llmDiff`/`p4Pair`). -/
def paso_4_escritura_comparison (llmDiff : String → String → Option Diffs)
    (persist : Except String Unit) (state : PState) : PState :=
  if state.versioning_results = [] then
    { state with error := "No hay resultados de versionado para comparar" }
  else
    if (aget state.versioning_results "escritura").getD [] = [] then
      { state with comparison_results := .emptyDict }
    else
      match persist with
      | .error e => { state with error := "Error en PASO 4: " ++ e }
      | .ok _ =>
          { state with
              comparison_results := .stage4 [("escritura",
                p4Loop llmDiff state.ocr_results
                  (ssort versionLe ((aget state.versioning_results "escritura").getD [])))] }

/-- `paso_5_legalizacion`.  A failed precondition returns the state
untouched (no error is recorded); `legOutcome` embeds the whole legalization
agent run plus persistence. -/
def paso_5_legalizacion (legOutcome : Except String (List (String × String)))
    (state : PState) : PState :=
  if state.ocr_results = [] ∨ state.versioning_results = [] then state
  else
    match legOutcome with
    | .ok results => { state with legalization_results := results }
    | .error e => { state with error := "Error en PASO 5 (legalización): " ++ e }

/-- `paso_7_version_comparison` (present in the source, not wired into the
graph).  `persist` embeds the agent construction and persistence of the
`try` block. -/
def paso_7_version_comparison (llmDiff : String → String → Option Diffs)
    (persist : Except String Unit) (state : PState) : PState :=
  if state.versioning_results = [] then
    { state with error := "No hay resultados de versionado para comparar" }
  else
    match persist with
    | .error e => { state with error := "Error en PASO 7: " ++ e }
    | .ok _ =>
        { state with
            comparison_results := .stage7 (comparar_versiones llmDiff
              state.versioning_results state.ocr_results) }

/-- Python truthiness of the `comparison_results` dict. -/
def compResNonempty : CompRes → Bool
  | .emptyDict => false
  | .stage4 m => decide (m ≠ [])
  | .stage7 m => decide (m ≠ [])

/-- `paso_8_report_generation`.  `repOutcome` embeds
`ReportGeneratorAgent().generate_complete_report` plus persistence. -/
def paso_8_report_generation (repOutcome : Except String (List (String × String)))
    (state : PState) : PState :=
  if state.versioning_results = [] then
    { state with error := "No hay resultados de versionado para generar informe" }
  else
    if ¬ (state.versioning_results ≠ [] ∨ compResNonempty state.comparison_results = true ∨
        state.legalization_results ≠ [] ∨ state.ocr_results ≠ []) then
      { state with error := "No hay datos suficientes para generar el informe" }
    else
      match repOutcome with
      | .ok report => { state with report_results := report }
      | .error e => { state with error := "Error en PASO 8: " ++ e }

/-- The compiled graph of `build_processing_graph`: the edges are all
unconditional (`paso_1 → paso_2 → paso_3 → paso_4 → paso_5 → paso_8 → END`),
so the run is the plain sequential composition of the stage functions —
no stage is ever skipped, whatever the `error` slot holds. -/
def processing_graph (ocrOutcome : Except String (List OcrDoc))
    (verOutcome : Except String (List ProcDoc)) (extract_from_ocr : Bool)
    (llmDiff : String → String → Option Diffs) (p4persist : Except String Unit)
    (legOutcome : Except String (List (String × String)))
    (repOutcome : Except String (List (String × String))) (state : PState) : PState :=
  paso_8_report_generation repOutcome
    (paso_5_legalizacion legOutcome
      (paso_4_escritura_comparison llmDiff p4persist
        (paso_3_vectorization extract_from_ocr
          (paso_2_versioning verOutcome
            (paso_1_ocr ocrOutcome state)))))

-- ---------------------------------------------------------------------------
-- Claims C3, C10
-- ---------------------------------------------------------------------------

/-- C3, counterexample: running the compiled graph on a folder whose OCR
yields zero documents, `paso_2` records its fatal message — and then
`paso_3` still executes and overwrites `error` with its own message, as do
`paso_4` and `paso_8`; the error that survives the run is the LAST stage's
message, not the first. -/
theorem C3_counterexample :
    (paso_2_versioning (.ok []) (paso_1_ocr (.ok [])
        (create_initial_state "carpeta"))).error =
      "No hay resultados de OCR para versionar documentos" ∧
    (paso_3_vectorization true (paso_2_versioning (.ok []) (paso_1_ocr (.ok [])
        (create_initial_state "carpeta")))).error =
      "Faltan resultados (OCR o versionado) para vectorizar" ∧
    (processing_graph (.ok []) (.ok []) true (fun _ _ => none) (.ok ()) (.ok [])
        (.ok []) (create_initial_state "carpeta")).error =
      "No hay resultados de versionado para generar informe" := by
  decide

/-- C3 (amended): the graph's edges are unconditional, so every stage runs
whatever `error` holds; a stage whose precondition fails overwrites `error`
with its own message (the LAST fatal error wins, not the first).  In
particular, a run whose OCR yields zero documents ends with `paso_8`'s
message, the failing `paso_2` having been overwritten. -/
theorem C3_amended :
    (∀ (s : PState) (verO : Except String (List ProcDoc)), s.ocr_results = [] →
        (paso_2_versioning verO s).error =
          "No hay resultados de OCR para versionar documentos") ∧
    (∀ (s : PState) (flag : Bool),
        s.ocr_results = [] ∨ s.versioning_results = [] →
        (paso_3_vectorization flag s).error =
          "Faltan resultados (OCR o versionado) para vectorizar") ∧
    (∀ (carpeta : String) (verO : Except String (List ProcDoc)) (flag : Bool)
        (llmDiff : String → String → Option Diffs) (p4p : Except String Unit)
        (legO repO : Except String (List (String × String))),
        (processing_graph (.ok []) verO flag llmDiff p4p legO repO
            (create_initial_state carpeta)).error =
          "No hay resultados de versionado para generar informe") := by
  refine ⟨?_, ?_, ?_⟩
  · intro s verO h
    simp [paso_2_versioning, h]
  · intro s flag h
    simp [paso_3_vectorization, h]
  · intro carpeta verO flag llmDiff p4p legO repO
    rfl

theorem C3_witness :
    (paso_2_versioning (.ok [⟨"f.pdf", "otros", "NO_FECHA", "t"⟩])
        (create_initial_state "x")).error =
      "No hay resultados de OCR para versionar documentos" ∧
    (paso_3_vectorization false (create_initial_state "x")).error =
      "Faltan resultados (OCR o versionado) para vectorizar" ∧
    (processing_graph (.ok []) (.error "no llm") true (fun _ _ => none) (.ok ())
        (.ok []) (.ok []) (create_initial_state "x")).error =
      "No hay resultados de versionado para generar informe" :=
  ⟨C3_amended.1 (create_initial_state "x")
      (.ok [⟨"f.pdf", "otros", "NO_FECHA", "t"⟩]) rfl,
    C3_amended.2.1 (create_initial_state "x") false (Or.inl rfl),
    C3_amended.2.2 "x" (.error "no llm") true (fun _ _ => none) (.ok ())
      (.ok []) (.ok [])⟩

/-- Everything of the processing state except the `error` slot. -/
def sameExceptError (t s : PState) : Prop :=
  t.carpeta = s.carpeta ∧ t.folder_path = s.folder_path ∧
  t.ocr_results = s.ocr_results ∧ t.entity_results = s.entity_results ∧
  t.classification_results = s.classification_results ∧
  t.vectorization_results = s.vectorization_results ∧
  t.versioning_results = s.versioning_results ∧
  t.comparison_results = s.comparison_results ∧
  t.legalization_results = s.legalization_results ∧
  t.report_results = s.report_results

/-- C10: every stage, on a failed precondition or a caught exception,
returns the state with at most the `error` slot changed — `ocr_results`,
`versioning_results`, `comparison_results`, `legalization_results`,
`report_results`, `carpeta`, `folder_path` (and the remaining slots) keep
exactly their entry values.  (`paso_5`'s precondition branch returns the
state completely untouched, `error` included.) -/
theorem C10_theorem (s : PState) :
    (∀ e, sameExceptError (paso_1_ocr (.error e) s) s) ∧
    (∀ verO, s.ocr_results = [] → sameExceptError (paso_2_versioning verO s) s) ∧
    (∀ e, sameExceptError (paso_2_versioning (.error e) s) s) ∧
    (∀ flag, s.ocr_results = [] ∨ s.versioning_results = [] →
        sameExceptError (paso_3_vectorization flag s) s) ∧
    (∀ llmDiff p4p, s.versioning_results = [] →
        sameExceptError (paso_4_escritura_comparison llmDiff p4p s) s) ∧
    (∀ llmDiff e, (aget s.versioning_results "escritura").getD [] ≠ [] →
        sameExceptError (paso_4_escritura_comparison llmDiff (.error e) s) s) ∧
    (∀ legO, s.ocr_results = [] ∨ s.versioning_results = [] →
        paso_5_legalizacion legO s = s) ∧
    (∀ e, sameExceptError (paso_5_legalizacion (.error e) s) s) ∧
    (∀ llmDiff p4p, s.versioning_results = [] →
        sameExceptError (paso_7_version_comparison llmDiff p4p s) s) ∧
    (∀ llmDiff e, sameExceptError (paso_7_version_comparison llmDiff (.error e) s) s) ∧
    (∀ repO, s.versioning_results = [] →
        sameExceptError (paso_8_report_generation repO s) s) ∧
    (∀ e, sameExceptError (paso_8_report_generation (.error e) s) s) := by
  refine ⟨?_, ?_, ?_, ?_, ?_, ?_, ?_, ?_, ?_, ?_, ?_, ?_⟩
  · intro e
    simp [paso_1_ocr, sameExceptError]
  · intro verO h
    simp [paso_2_versioning, h, sameExceptError]
  · intro e
    by_cases h : s.ocr_results = [] <;> simp [paso_2_versioning, h, sameExceptError]
  · intro flag h
    simp [paso_3_vectorization, h, sameExceptError]
  · intro llmDiff p4p h
    simp [paso_4_escritura_comparison, h, sameExceptError]
  · intro llmDiff e hesc
    by_cases h : s.versioning_results = [] <;>
      simp [paso_4_escritura_comparison, h, hesc, sameExceptError]
  · intro legO h
    simp [paso_5_legalizacion, h]
  · intro e
    by_cases h : s.ocr_results = [] ∨ s.versioning_results = [] <;>
      simp [paso_5_legalizacion, h, sameExceptError]
  · intro llmDiff p4p h
    simp [paso_7_version_comparison, h, sameExceptError]
  · intro llmDiff e
    by_cases h : s.versioning_results = [] <;>
      simp [paso_7_version_comparison, h, sameExceptError]
  · intro repO h
    simp [paso_8_report_generation, h, sameExceptError]
  · intro e
    by_cases h : s.versioning_results = [] <;>
      by_cases h2 : s.versioning_results ≠ [] ∨ compResNonempty s.comparison_results = true ∨
          s.legalization_results ≠ [] ∨ s.ocr_results ≠ [] <;>
        simp [paso_8_report_generation, h, h2, sameExceptError]

theorem C10_witness :
    sameExceptError (paso_1_ocr (.error "fallo de red") (create_initial_state "x"))
        (create_initial_state "x") ∧
    sameExceptError (paso_2_versioning (.ok []) (create_initial_state "x"))
        (create_initial_state "x") ∧
    sameExceptError (paso_4_escritura_comparison (fun _ _ => none) (.ok ())
        (create_initial_state "x")) (create_initial_state "x") ∧
    paso_5_legalizacion (.ok [("poderes", "")]) (create_initial_state "x") =
      create_initial_state "x" ∧
    sameExceptError (paso_8_report_generation (.error "llm caido")
        (create_initial_state "x")) (create_initial_state "x") :=
  ⟨(C10_theorem (create_initial_state "x")).1 "fallo de red",
    (C10_theorem (create_initial_state "x")).2.1 (.ok []) rfl,
    (C10_theorem (create_initial_state "x")).2.2.2.2.1 (fun _ _ => none) (.ok ()) rfl,
    (C10_theorem (create_initial_state "x")).2.2.2.2.2.2.1 (.ok [("poderes", "")])
      (Or.inl rfl),
    (C10_theorem (create_initial_state "x")).2.2.2.2.2.2.2.2.2.2.2 "llm caido"⟩
